import Mathlib

/-!
Verification development for the TableGen semantics emitter
(`utils/TableGen/SemanticsEmitter.cpp`): a shallow embedding of the pattern
flattener and table emitter, followed by theorems about its behaviour.

Modelling conventions:
* TableGen `Record`s are represented by an inductive capturing exactly the
  class memberships the emitter queries (`Operand`, `RegisterOperand`,
  `RegisterClass`, `Register`); record pointer identity becomes structural
  equality (records are uniquely named).
* Machine value types (`MVT::SimpleValueType`) are `SVT`, with the
  distinguished `isVoid` sentinel; other concrete types carry their name.
* Operand tokens (C++ `std::vector<std::string> Operands`) are modelled by
  `OpTok`: `utostr(n)` becomes `OpTok.num n`, and qualified-name strings
  become `OpTok.sym s` (decimal strings and `::`-qualified names never
  collide).
* The 32-bit unsigned counters are `Nat`.  Subtraction, which can genuinely
  underflow at small values, is modelled exactly as two's-complement
  `wrap32`; the increment paths only wrap beyond 2^32 definitions or
  2^32 pool entries, which no run of the generator can reach, so they are
  plain `Nat` addition.
* `assert`/`llvm_unreachable` compile to no-ops in release builds (the
  specification treats them as disabled diagnostics); the embedding models
  the release behaviour and keeps all functions total by making the
  corresponding undefined-behaviour branches inert.
-/

namespace Sem

/-- Two's complement truncation to 32 bits, for the `unsigned` arithmetic of
the flattener (`CurDefNo - (Prev.Types.size() - 1)` and friends). -/
def wrap32 (z : Int) : Nat := (z % (2 ^ 32 : Int)).toNat

/-- TableGen records, classified exactly as `SemanticsEmitter.cpp` queries
them via `isSubClassOf`; a `RegisterOperand` carries its wrapped
`RegClass` record (`getValueAsDef("RegClass")`). -/
inductive Rec where
  | operand (name : String)
  | registerOperand (name : String) (regClass : Rec)
  | registerClass (name : String)
  | register (name : String)
  | other (name : String)
deriving DecidableEq, Repr

/-- `Record::getName()`. -/
def Rec.getName : Rec → String
  | .operand n => n
  | .registerOperand n _ => n
  | .registerClass n => n
  | .register n => n
  | .other n => n

/-- `isSubClassOf("Operand")`. -/
def Rec.isOperandSub : Rec → Bool
  | .operand _ => true
  | _ => false

/-- `isSubClassOf("RegisterClass")`. -/
def Rec.isRegisterClassSub : Rec → Bool
  | .registerClass _ => true
  | _ => false

/-- `isSubClassOf("Register")`. -/
def Rec.isRegisterSub : Rec → Bool
  | .register _ => true
  | _ => false

/-- "RegisterOperands are the same thing as RegisterClasses": replace a
`RegisterOperand` record by its `RegClass` record. -/
def normalizeRegisterOperand (r : Rec) : Rec :=
  match r with
  | .registerOperand _ rc => rc
  | _ => r

/-- Operator records of pattern nodes: the emitter dispatches on the name
(`"set"`, `"implicit"`) first and on `isSubClassOf("SDNode")` otherwise; an
SDNode operator carries its name (the key of the equivalence map) and its
`Opcode` string field. -/
inductive OpRec where
  | set
  | implicit
  | sdnode (name : String) (opcode : String)
  | other (name : String)
deriving DecidableEq, Repr

/-- `MVT::SimpleValueType`: the `isVoid` sentinel, or a concrete type
identified by its enum name. -/
inductive SVT where
  | isVoid
  | vt (name : String)
deriving DecidableEq, Repr

/-- Boolean test against the `MVT::isVoid` sentinel. -/
def SVT.isVoidB : SVT → Bool
  | .isVoid => true
  | _ => false

/-- Leaf values of a pattern node: an `IntInit` compile-time constant (its
64-bit value) or a `DefInit` record reference. -/
inductive LeafVal where
  | intLeaf (value : Nat)
  | defLeaf (rec : Rec)
deriving DecidableEq, Repr

/-- `TreePatternNode`: a leaf with a leaf value, or an interior node with an
operator and children; both carry the (possibly empty) name and the list of
inferred concrete result types (`getExtType(i).getConcrete()`). -/
inductive TPN where
  | leaf (name : String) (types : List SVT) (lv : LeafVal)
  | node (name : String) (types : List SVT) (op : OpRec) (children : List TPN)

/-- `TreePatternNode::getName()`. -/
def TPN.getName : TPN → String
  | .leaf n _ _ => n
  | .node n _ _ _ => n

/-- `TreePatternNode::getNumTypes()` source data: the inferred type list. -/
def TPN.getTypes : TPN → List SVT
  | .leaf _ t _ => t
  | .node _ t _ _ => t

/-- `TreePatternNode::getNumTypes()`. -/
def TPN.getNumTypes (t : TPN) : Nat := t.getTypes.length

/-- The record of `cast<DefInit>(TPN->getLeafValue())`, when the node is a
leaf holding a record. -/
def TPN.leafDefRec : TPN → Option Rec
  | .leaf _ _ (.defLeaf r) => some r
  | _ => none

/-- `getLeafValue()->getAsString()` as used by `flattenImplicit` (children of
an `implicit` node are register leaves; other shapes are undefined behaviour
in the C++ and rendered as the empty string here). -/
def TPN.leafAsString : TPN → String
  | .leaf _ _ (.defLeaf r) => r.getName
  | .leaf _ _ (.intLeaf v) => toString v
  | .node _ _ _ _ => ""

/-- `CGIOperandList::OperandInfo`: name, `MIOperandNo`, `OperandType` tag and
the operand's record. -/
structure OperandInfo where
  name : String
  miOperandNo : Nat
  opType : String
  record : Rec
deriving DecidableEq, Repr

/-- The slice of `CodeGenInstruction` the flattener reads: target namespace,
operand list, and the `isCodeGenOnly` flag. -/
structure CGI where
  namespc : String
  operands : List OperandInfo
  isCodeGenOnly : Bool
deriving DecidableEq, Repr

/-- `Flattener::getNamedOperand`: empty names match nothing, otherwise the
first operand with the given name. -/
def getNamedOperand (cgi : CGI) (name : String) : Option OperandInfo :=
  if name = "" then none
  else cgi.operands.find? (fun oi => oi.name == name)

/-- `getSDNodeInfo` results used by the equivalence rewrite: the
target-independent enum name and declared result count. -/
structure SDNodeInfoS where
  enumName : String
  numResults : Nat
deriving DecidableEq, Repr

/-- Association-list lookup with `Nat` keys (models `std::map<uint64_t,_>`
as a key-to-value map; the emitted constant array is insensitive to the
map's key-ordered iteration because it writes by assigned index). -/
def lookupN : List (Nat × Nat) → Nat → Option Nat
  | [], _ => none
  | (k, v) :: t, k' => if k = k' then some v else lookupN t k'

/-- `std::map::operator[] = v`: update in place if the key is present,
otherwise insert. -/
def assocSetN : List (Nat × Nat) → Nat → Nat → List (Nat × Nat)
  | [], k, v => [(k, v)]
  | (k', v') :: t, k, v => if k' = k then (k, v) :: t else (k', v') :: assocSetN t k v

/-- Association-list lookup with `String` keys (models `StringMap` and the
record-keyed `SDNodeEquivMap`). -/
def lookupS {β : Type} : List (String × β) → String → Option β
  | [], _ => none
  | (k, v) :: t, k' => if k = k' then some v else lookupS t k'

/-- `SemanticsTarget`: the node-equivalence relation (keyed by the
target-specific operator record's name) and the constant-interning state
`ConstantIdx` / `CurConstIdx`. -/
structure SemanticsTarget where
  sdnodeEquiv : List (String × SDNodeInfoS)
  constantIdx : List (Nat × Nat)
  curConstIdx : Nat
deriving DecidableEq, Repr

/-- A fresh `SemanticsTarget`: empty pool, `CurConstIdx` starting at 1. -/
def SemanticsTarget.init (equiv : List (String × SDNodeInfoS)) : SemanticsTarget :=
  { sdnodeEquiv := equiv, constantIdx := [], curConstIdx := 1 }

/-- The constant-pool interning step of `flattenLeaf`:
`unsigned &Idx = ConstantIdx[v]; if (Idx == 0) Idx = CurConstIdx++;`
(`operator[]` default-constructs absent entries to 0). -/
def internConstant (t : SemanticsTarget) (v : Nat) : Nat × SemanticsTarget :=
  let idx := (lookupN t.constantIdx v).getD 0
  if idx = 0 then
    (t.curConstIdx,
     { t with constantIdx := assocSetN t.constantIdx v t.curConstIdx,
              curConstIdx := t.curConstIdx + 1 })
  else (idx, t)

/-- Operand tokens (`NodeSemantics::Operands` entries, emitted verbatim):
`utostr` of a number, or a qualified symbolic name. -/
inductive OpTok where
  | num (n : Nat)
  | sym (s : String)
deriving DecidableEq, Repr

/-- `NodeSemantics`: an opcode token, result types, and operand tokens. -/
structure NodeSemantics where
  opcode : String
  types : List SVT
  operands : List OpTok
deriving DecidableEq, Repr

/-- The number of non-`void` entries of a type vector (the amount by which
`CurDefNo` advances when the node is appended). -/
def nonVoidCount (ts : List SVT) : Nat :=
  (ts.filter (fun t => ! t.isVoidB)).length

/-- Diagnostics written to `errs()`; the `set` arity check dumps the child
count, the offending node and its last child. -/
inductive Diag where
  | setArityMismatch (numNodeDefs : Nat) (setNode : TPN) (numTypes : Nat) (lastChild : TPN)

/-- Per-instruction flattener state: the threaded global target (constant
pool), the instruction semantics built so far (`I.Semantics`), the dense
definition counter `CurDefNo`, the `OperandByName` table, the
Eliminated-Implicit-Regs set, and the diagnostics stream. -/
structure FlatSt where
  target : SemanticsTarget
  sems : List NodeSemantics
  curDefNo : Nat
  operandByName : List (String × Nat)
  elimRegs : List Rec
  errs : List Diag

/-- Fresh flattener state for one instruction over the given target. -/
def FlatSt.init (t : SemanticsTarget) : FlatSt :=
  { target := t, sems := [], curDefNo := 0, operandByName := [], elimRegs := [], errs := [] }

/-- `Flattener::addSemantics`: append the node and advance `CurDefNo` once
per non-`void` result type. -/
def addSemantics (st : FlatSt) (ns : NodeSemantics) : FlatSt :=
  { st with curDefNo := st.curDefNo + nonVoidCount ns.types,
            sems := st.sems ++ [ns] }

/-- The operand tokens `Flattener::addResOperand` wires into the parent:
`FirstDefNo = CurDefNo - (Types.size() - 1)` in unsigned arithmetic, then
one token `FirstDefNo + i` per non-`void` type position `i`. -/
def resOperandTokens (curDefNo : Nat) (types : List SVT) : List OpTok :=
  let first := wrap32 ((curDefNo : Int) - ((types.length : Int) - 1))
  (List.range types.length).filterMap fun i =>
    match types[i]? with
    | some t => if t.isVoidB then none else some (OpTok.num ((first + i) % 2 ^ 32))
    | none => none

/-- `Flattener::addResOperand`: compute the result tokens for the parent
(the C++ appends them to the parent by reference; here they are returned to
the caller), then `addSemantics` the child. -/
def addResOperand (st : FlatSt) (prev : NodeSemantics) : List OpTok × FlatSt :=
  (resOperandTokens st.curDefNo prev.types, addSemantics st prev)

/-- `Flattener::setNSTypeFromNode`: the node's inferred types, or `[isVoid]`
for a node without results. -/
def setNSTypeFromNode (tys : List SVT) : List SVT :=
  if tys.isEmpty then [SVT.isVoid] else tys

/-- `Flattener::flattenOperand` (the named-operand case).  Note that only
the `CUSTOM_OP` branch consults and updates `OperandByName`. -/
def flattenOperand (cgi : CGI) (nsTypes : List SVT) (oi : OperandInfo)
    (st : FlatSt) : List OpTok × FlatSt :=
  let opRec := normalizeRegisterOperand oi.record
  if opRec.isOperandSub then
    if oi.opType = "OPERAND_IMMEDIATE" then
      addResOperand st
        { opcode := "DCINS::CONSTANT_OP", types := nsTypes,
          operands := [OpTok.num oi.miOperandNo] }
    else
      match lookupS st.operandByName oi.name with
      | none =>
          addResOperand
            { st with operandByName := st.operandByName ++ [(oi.name, st.curDefNo)] }
            { opcode := "DCINS::CUSTOM_OP", types := nsTypes,
              operands := [OpTok.sym (cgi.namespc ++ "::OpTypes::" ++ opRec.getName),
                           OpTok.num oi.miOperandNo] }
      | some d =>
          -- already found: no need to generate the operation again
          ([OpTok.num d], st)
  else if opRec.isRegisterClassSub then
    addResOperand st
      { opcode := "DCINS::GET_RC", types := nsTypes,
        operands := [OpTok.num oi.miOperandNo] }
  else
    ([], st)  -- llvm_unreachable("Unknown operand type")

/-- `Flattener::flattenLeaf`. -/
def flattenLeaf (cgi : CGI) (nsTypes : List SVT) (lv : LeafVal)
    (st : FlatSt) : List OpTok × FlatSt :=
  match lv with
  | .intLeaf v =>
      let p := internConstant st.target v
      addResOperand { st with target := p.2 }
        { opcode := "DCINS::MOV_CONSTANT", types := nsTypes,
          operands := [OpTok.num p.1] }
  | .defLeaf r =>
      if r.isRegisterSub then
        addResOperand st
          { opcode := "DCINS::GET_REG", types := nsTypes,
            operands := [OpTok.sym (cgi.namespc ++ "::" ++ r.getName)] }
      else
        ([], st)  -- llvm_unreachable("Unknown operand type")

/-- `Flattener::flattenImplicit`: opcode `IMPLICIT`, one operand per child
(its qualified leaf name). -/
def flattenImplicit (cgi : CGI) (children : List TPN)
    (ns : NodeSemantics) : NodeSemantics :=
  { ns with opcode := "DCINS::IMPLICIT",
            operands := ns.operands ++
              children.map (fun c => OpTok.sym (cgi.namespc ++ "::" ++ c.leafAsString)) }

/-- Drop `k` trailing entries (`k` iterations of `Types.pop_back()`). -/
def popTypes (l : List SVT) (k : Nat) : List SVT := l.take (l.length - k)

/-- The equivalence rewrite of `Flattener::flattenSDNode`: opcode from the
operator's `Opcode` field, then, when the operator is in `SDNodeEquiv`,
the equivalent's enum name with the trailing
`numTypes - equivalent.numResults` types dropped. -/
def applyEquiv (equiv : List (String × SDNodeInfoS)) (opName opcodeStr : String)
    (ns : NodeSemantics) (numTypes : Nat) : NodeSemantics :=
  match lookupS equiv opName with
  | none => { ns with opcode := opcodeStr }
  | some info =>
      { ns with opcode := info.enumName,
                types := popTypes ns.types (numTypes - info.numResults) }

/-- The destination node of one `set` output (`PUT_RC`/`PUT_REG`, or the
inert fallthrough when the record is neither — the C++ leaves the opcode
empty and appends only the value index). -/
def setDestNS (cgi : CGI) (children : List TPN) (firstDefNo i : Nat) : NodeSemantics :=
  match children[i]? with
  | none =>
      { opcode := "", types := [SVT.isVoid],
        operands := [OpTok.num ((firstDefNo + i) % 2 ^ 32)] }
  | some child =>
      let opRec0 := (child.leafDefRec).getD (Rec.other "")
      let opRec := normalizeRegisterOperand opRec0
      let base : List OpTok :=
        if opRec.isRegisterClassSub then
          match getNamedOperand cgi child.getName with
          | some oi => [OpTok.num oi.miOperandNo]
          | none => []
        else if opRec.isRegisterSub then
          [OpTok.sym (cgi.namespc ++ "::" ++ opRec.getName)]
        else []
      let opc :=
        if opRec.isRegisterClassSub then "DCINS::PUT_RC"
        else if opRec.isRegisterSub then "DCINS::PUT_REG"
        else ""
      { opcode := opc, types := [SVT.isVoid],
        operands := base ++ [OpTok.num ((firstDefNo + i) % 2 ^ 32)] }

/-- Insert into the Eliminated-Implicit-Regs set (insertion-ordered;
modelled from the spec: the concrete `SmallPtrSet` iteration order is
outside this repository's sources, and the specification fixes insertion
order as the deterministic choice). -/
def elimInsert (regs : List Rec) (r : Rec) : List Rec :=
  if r ∈ regs then regs else regs ++ [r]

/-- The body of the dropped-results loop of `flattenSet`: insert the
destination child's record (the `cast<DefInit>` succeeds only on record
leaves; other shapes are undefined behaviour in the C++ and inert here). -/
def elimInsertChild (st : FlatSt) (c : Option TPN) : FlatSt :=
  match c with
  | some child =>
      match child.leafDefRec with
      | some r => { st with elimRegs := elimInsert st.elimRegs r }
      | none => st
  | none => st

/-- The tail of `Flattener::flattenSet` once the last child has been
flattened into the discard parent `DummyNS` (`p.1` holds the tokens the
last child wired into it, `p.2` the state after flattening it): count the
produced values, emit one destination node per value, then record the
equivalence-dropped trailing destinations in Eliminated-Implicit-Regs. -/
def flattenSetRest (cgi : CGI) (children : List TPN) (p : List OpTok × FlatSt) : FlatSt :=
  let numDefs := p.1.length
  let firstDefNo := wrap32 ((p.2.curDefNo : Int) - (numDefs : Int))
  let st2 := (List.range numDefs).foldl
    (fun acc i => addSemantics acc (setDestNS cgi children firstDefNo i)) p.2
  ((List.range (children.length - 1)).drop numDefs).foldl
    (fun acc i => elimInsertChild acc children[i]?) st2

mutual

/-- `Flattener::flatten(TPN, Parent)`.  The C++ threads the parent node by
reference and appends result tokens to it; here the tokens destined for the
parent are returned (the root call discards them, matching the
`if (Parent) addResOperand else addSemantics` tail, whose state effect is
identical either way).  The body of `Flattener::flattenSet` is inlined into
the `set` branch (its only recursive call, `flatten(LastChild, &DummyNS)`,
is performed by the structural helper `flattenLast`); the standalone
`flattenSet` below restates it and agrees definitionally. -/
def flatten (cgi : CGI) (tpn : TPN) (st : FlatSt) : List OpTok × FlatSt :=
  match getNamedOperand cgi tpn.getName with
  | some oi => flattenOperand cgi (setNSTypeFromNode tpn.getTypes) oi st
  | none =>
    match tpn with
    | .leaf _ tys lv => flattenLeaf cgi (setNSTypeFromNode tys) lv st
    | .node nm tys op children =>
      match op with
      | .set => ([],
          match children[children.length - 1]? with
          | none => st  -- getChild on an empty child list: unreachable
          | some lastChild =>
            if children.length - 1 ≠ lastChild.getNumTypes then
              { st with errs := st.errs ++
                  [Diag.setArityMismatch (children.length - 1)
                    (TPN.node nm tys OpRec.set children)
                    lastChild.getNumTypes lastChild] }
            else
              match flattenLast cgi children st with
              | none => st  -- unreachable: children is nonempty here
              | some p => flattenSetRest cgi children p)
      | .implicit =>
          addResOperand st
            (flattenImplicit cgi children
              { opcode := "", types := setNSTypeFromNode tys, operands := [] })
      | .sdnode opName opcodeStr =>
          -- `Flattener::flattenSDNode`: equivalence rewrite, then flatten
          -- each child with this node as parent.
          let q := flattenChildren cgi children
            (applyEquiv st.target.sdnodeEquiv opName opcodeStr
              { opcode := "", types := setNSTypeFromNode tys, operands := [] }
              tys.length) st
          addResOperand q.2 q.1
      | .other _ => ([], st)  -- llvm_unreachable("Unable to handle operator.")
termination_by structural tpn

/-- The child loop of `flattenSDNode`: each child's result tokens are
appended to the parent's operands. -/
def flattenChildren (cgi : CGI) (cs : List TPN) (ns : NodeSemantics)
    (st : FlatSt) : NodeSemantics × FlatSt :=
  match cs with
  | [] => (ns, st)
  | c :: cs' =>
      let p := flatten cgi c st
      flattenChildren cgi cs' { ns with operands := ns.operands ++ p.1 } p.2
termination_by structural cs

/-- `flatten` applied to the last element of a child list (the
`flatten(LastChild, &DummyNS)` call of `flattenSet`, phrased as structural
recursion; `flattenLast_eq` below identifies it with `flatten` of
`getChild(getNumChildren() - 1)`). -/
def flattenLast (cgi : CGI) (cs : List TPN) (st : FlatSt) : Option (List OpTok × FlatSt) :=
  match cs with
  | [] => none
  | [c] => some (flatten cgi c st)
  | _ :: c :: cs' => flattenLast cgi (c :: cs') st
termination_by structural cs

end

/-- `Flattener::flattenSet`, standalone.  On a
`NumNodeDefs != LastChild->getNumTypes()` mismatch, dump a diagnostic and
return without appending anything; otherwise flatten the last child into a
discard parent and process destinations and dropped results
(`flattenSetRest`). -/
def flattenSet (cgi : CGI) (nm : String) (tys : List SVT) (children : List TPN)
    (st : FlatSt) : FlatSt :=
  match children[children.length - 1]? with
  | none => st  -- getChild on an empty child list: unreachable
  | some lastChild =>
    if children.length - 1 ≠ lastChild.getNumTypes then
      { st with errs := st.errs ++
          [Diag.setArityMismatch (children.length - 1)
            (TPN.node nm tys OpRec.set children)
            lastChild.getNumTypes lastChild] }
    else
      match flattenLast cgi children st with
      | none => st  -- unreachable: children is nonempty here
      | some p => flattenSetRest cgi children p

/-- `Flattener::flattenSDNode`, standalone: equivalence rewrite, then
flatten each child with this node as parent. -/
def flattenSDNode (cgi : CGI) (opName opcodeStr : String) (children : List TPN)
    (ns : NodeSemantics) (numTypes : Nat) (st : FlatSt) : List OpTok × FlatSt :=
  let q := flattenChildren cgi children
    (applyEquiv st.target.sdnodeEquiv opName opcodeStr ns numTypes) st
  addResOperand q.2 q.1

/-- The `IMPLICIT` tail node appended for one eliminated implicit register:
types `[isVoid]`, single operand, the qualified register name. -/
def implicitNS (cgi : CGI) (r : Rec) : NodeSemantics :=
  { opcode := "DCINS::IMPLICIT", types := [SVT.isVoid],
    operands := [OpTok.sym (cgi.namespc ++ "::" ++ r.getName)] }

/-- The public `Flattener::flatten(TPN)`: flatten the tree as a root, then
append one `IMPLICIT` node per register currently in
Eliminated-Implicit-Regs (the set is not cleared between trees). -/
def flattenPublic (cgi : CGI) (tpn : TPN) (st : FlatSt) : FlatSt :=
  let st1 := (flatten cgi tpn st).2
  { st1 with sems := st1.sems ++ st1.elimRegs.map (implicitNS cgi) }

/-- `InstSemantics::InstSemantics(Target, CGI, TP)`: one `Flattener` runs the
public `flatten` over each tree of the pattern in order. -/
def flattenInstruction (cgi : CGI) (trees : List TPN) (t : SemanticsTarget) : FlatSt :=
  trees.foldl (fun st tr => flattenPublic cgi tr st) (FlatSt.init t)

/-- The default-constructed `InstSemantics` (the dummy at slot 0): a single
`END_OF_INSTRUCTION` node with no types and no operands. -/
def emptyInstSemantics : List NodeSemantics :=
  [{ opcode := "DCINS::END_OF_INSTRUCTION", types := [], operands := [] }]

/-- `SemanticsEmitter` state: the accumulated `InstSemas` list and the
`InstIdx` table (instruction enum value to `InstSemas` slot; rewritten to
stream offsets during `run`). -/
structure EmitSt where
  instSemas : List (List NodeSemantics)
  instIdx : List Nat
deriving DecidableEq, Repr

/-- `SemanticsEmitter::addInstSemantics`: record the slot, then push. -/
def addInstSemantics (es : EmitSt) (instEnumValue : Nat) (sema : List NodeSemantics) : EmitSt :=
  { instIdx := es.instIdx.set instEnumValue es.instSemas.length,
    instSemas := es.instSemas ++ [sema] }

/-- The emitter state right after construction begins: `InstIdx` sized to
the instruction count, then the dummy semantics installed at slot 0. -/
def emitterInit (numInstrs : Nat) : EmitSt :=
  addInstSemantics { instSemas := [], instIdx := List.replicate numInstrs 0 }
    0 emptyInstSemantics

/-- One instruction of the pattern-fallback input: its `CodeGenInstruction`
and the optional pattern (`DAGInstruction::getPattern()`, as a tree list). -/
structure InstrDesc where
  cgi : CGI
  pattern : Option (List TPN)

/-- One iteration of the pattern-fallback loop of the `SemanticsEmitter`
constructor: skip instructions already assigned, otherwise flatten the
pattern (when present and not code-gen-only) and install it. -/
def fallbackStep (d : InstrDesc) (i : Nat) (es : EmitSt) (t : SemanticsTarget) :
    EmitSt × SemanticsTarget :=
  if (es.instIdx[i]?).getD 0 ≠ 0 then (es, t)
  else
    match d.pattern with
    | some trees =>
        if d.cgi.isCodeGenOnly then (es, t)
        else
          let fst := flattenInstruction d.cgi trees t
          (addInstSemantics es i fst.sems, fst.target)
    | none => (es, t)

/-- The pattern-fallback loop, instruction `i` onwards.  The constant pool
(inside `SemanticsTarget`) is threaded across instructions. -/
def fallbackPhase : List InstrDesc → Nat → EmitSt → SemanticsTarget →
    EmitSt × SemanticsTarget
  | [], _, es, t => (es, t)
  | d :: ds, i, es, t =>
      let p := fallbackStep d i es t
      fallbackPhase ds (i + 1) p.1 p.2

/-- Entries of the emitted `InstSemantics[]` stream: an opcode token, a type
enum name, or an operand token, each printed as one array entry. -/
inductive Tok where
  | opc (s : String)
  | ty (t : SVT)
  | opnd (o : OpTok)
deriving DecidableEq, Repr

/-- The `END_OF_INSTRUCTION` stream entry. -/
def endTok : Tok := Tok.opc "DCINS::END_OF_INSTRUCTION"

/-- The stream entries of one `NodeSemantics` line:
`<Opcode>, <Type[0]>, ..., <Operand[0]>, ...`. -/
def nodeTokens (n : NodeSemantics) : List Tok :=
  Tok.opc n.opcode :: (n.types.map Tok.ty ++ n.operands.map Tok.opnd)

/-- Concatenation of a list of lists. -/
def joinAll {α : Type} : List (List α) → List α
  | [] => []
  | l :: ls => l ++ joinAll ls

/-- The emitted block of one instruction: its node lines followed by the
terminating `END_OF_INSTRUCTION`. -/
def blockTokens (sema : List NodeSemantics) : List Tok :=
  joinAll (sema.map nodeTokens) ++ [endTok]

/-- One iteration of the emission loop of `SemanticsEmitter::run` over
instruction `i`: skip unassigned entries; otherwise rewrite `InstIdx[i]` to
the current stream offset (`InstIdx[I] = CurSemaOffset++`, the increment
paying for the block's trailing `END_OF_INSTRUCTION`), then stream the
block's nodes, advancing the offset by one per opcode plus the type and
operand counts. -/
def runEmitStep (instSemas : List (List NodeSemantics))
    (acc : List Tok × Nat × List Nat) (i : Nat) : List Tok × Nat × List Nat :=
  let stream := acc.1
  let cur := acc.2.1
  let idx := acc.2.2
  match (idx[i]?).getD 0 with
  | 0 => acc
  | v =>
      let sema := (instSemas[v]?).getD []
      let idx1 := idx.set i cur
      let q := sema.foldl
        (fun (p : List Tok × Nat) n =>
          (p.1 ++ nodeTokens n, p.2 + 1 + n.types.length + n.operands.length))
        (stream, cur + 1)
      (q.1 ++ [endTok], q.2, idx1)

/-- `SemanticsEmitter::run`'s stream construction: the leading
`END_OF_INSTRUCTION` at offset 0, `CurSemaOffset = 1`, then the per
instruction loop.  Returns the `InstSemantics[]` stream, the final offset,
and the rewritten `OpcodeToSemaIdx[]` table. -/
def runEmit (es : EmitSt) : List Tok × Nat × List Nat :=
  (List.range es.instIdx.length).foldl (runEmitStep es.instSemas)
    ([endTok], 1, es.instIdx)

/-- The `ConstantArray[]` emission of `SemanticsEmitter::run`: a zero-filled
array of `|pool| + 1` entries, then `Constants[CI->second] = CI->first` for
every pool entry. -/
def emitConstants (t : SemanticsTarget) : List Nat :=
  t.constantIdx.foldl (fun arr p => arr.set p.2 p.1)
    (List.replicate (t.constantIdx.length + 1) 0)

/-- Well-formedness of the interning state, as established by construction:
assigned indices are exactly `1, 2, ..., |pool|` in insertion order, and
`CurConstIdx` is the next free index. -/
def poolWF (t : SemanticsTarget) : Prop :=
  t.constantIdx.map Prod.snd = List.range' 1 t.constantIdx.length ∧
  t.curConstIdx = t.constantIdx.length + 1

instance (t : SemanticsTarget) : Decidable (poolWF t) := by
  unfold poolWF; infer_instance

mutual

/-- Number of references to the named operand `nm` in a pattern tree
(nodes whose name is `nm`). -/
def countRefs (t : TPN) (nm : String) : Nat :=
  match t with
  | .leaf n _ _ => if n = nm then 1 else 0
  | .node n _ _ children => (if n = nm then 1 else 0) + countRefsList children nm

/-- List version of `countRefs`. -/
def countRefsList (ts : List TPN) (nm : String) : Nat :=
  match ts with
  | [] => 0
  | c :: cs => countRefs c nm + countRefsList cs nm

end

/-- The DefNos the `k`-th node of an instruction block defines: the running
non-`void` count of the preceding nodes, one DefNo per non-`void` type. -/
def acquiredDefNos (sems : List NodeSemantics) (k : Nat) : List Nat :=
  let before := nonVoidCount (joinAll ((sems.take k).map (fun n => n.types)))
  (List.range (nonVoidCount (((sems[k]?).map (fun n => n.types)).getD []))).map
    (fun j => before + j)

/-! Concrete example instructions used to instantiate the theorems. -/

/-- Example target with the equivalence `addflag → ISD::ADD` (one
target-independent result). -/
def exEquivTarget : SemanticsTarget :=
  SemanticsTarget.init [("addflag", ⟨"ISD::ADD", 1⟩)]

/-- Example instruction: namespace `X`, destination `$d` (MI operand 0) and
source `$a` (MI operand 1), both of register class `GPR`. -/
def exCgi : CGI :=
  ⟨"X", [⟨"d", 0, "", Rec.registerClass "GPR"⟩,
         ⟨"a", 1, "", Rec.registerClass "GPR"⟩], false⟩

/-- The pattern leaf `GPR:$a`. -/
def exARef : TPN := TPN.leaf "a" [SVT.vt "i32"] (LeafVal.defLeaf (Rec.registerClass "GPR"))

/-- The destination leaf `GPR:$d`. -/
def exDLeaf : TPN := TPN.leaf "d" [SVT.vt "i32"] (LeafVal.defLeaf (Rec.registerClass "GPR"))

/-- `(add GPR:$a, GPR:$a)`: the same named operand referenced twice. -/
def exAddAA : TPN :=
  TPN.node "" [SVT.vt "i32"] (OpRec.sdnode "add" "ISD::ADD") [exARef, exARef]

/-- `(set GPR:$d, (add GPR:$a, GPR:$a))`. -/
def exTreeDup : TPN := TPN.node "" [] OpRec.set [exDLeaf, exAddAA]

/-- `(umul_lohi GPR:$a)`: a node with two non-`void` result types. -/
def exMul2 : TPN :=
  TPN.node "" [SVT.vt "i32", SVT.vt "i32"] (OpRec.sdnode "umul_lohi" "ISD::UMUL_LOHI") [exARef]

/-- `(add (umul_lohi GPR:$a))`: the two-result node under a parent. -/
def exAddMul : TPN :=
  TPN.node "" [SVT.vt "i32"] (OpRec.sdnode "add" "ISD::ADD") [exMul2]

/-- `(set GPR:$d, (add (umul_lohi GPR:$a)))`. -/
def exTreeMul : TPN := TPN.node "" [] OpRec.set [exDLeaf, exAddMul]

/-- `(addflag GPR:$a)` with two inferred result types (value and flags). -/
def exAddFlag : TPN :=
  TPN.node "" [SVT.vt "i32", SVT.vt "i32"] (OpRec.sdnode "addflag" "XI::ADDFLAG") [exARef]

/-- An unnamed `EFLAGS` register leaf. -/
def exEflags : TPN := TPN.leaf "" [] (LeafVal.defLeaf (Rec.register "EFLAGS"))

/-- An unnamed `GPR2` register-class leaf (not a `Register` record). -/
def exGpr2Leaf : TPN := TPN.leaf "" [] (LeafVal.defLeaf (Rec.registerClass "GPR2"))

/-- `(set GPR:$d, EFLAGS, (addflag GPR:$a))`: the equivalence rewrite drops
the flags result, eliminating `EFLAGS`. -/
def exTreeFlag : TPN := TPN.node "" [] OpRec.set [exDLeaf, exEflags, exAddFlag]

/-- `(set GPR:$d, GPR2, (addflag GPR:$a))`: the dropped destination is a
register-class leaf, not a register. -/
def exTreeBadDrop : TPN := TPN.node "" [] OpRec.set [exDLeaf, exGpr2Leaf, exAddFlag]

/-- `(trap)`: a second, trivial root tree. -/
def exTrap : TPN := TPN.node "" [] (OpRec.sdnode "trap" "ISD::TRAP") []

/-- A `set` with two destinations but a one-result last child: the arity
mismatch diagnosed by `flattenSet`. -/
def exTreeMismatch : TPN := TPN.node "" [] OpRec.set [exDLeaf, exDLeaf, exAddAA]

/-- A destination leaf `$o` whose record is neither a `RegisterClass` nor a
`Register` after normalization. -/
def exOtherLeaf : TPN := TPN.leaf "o" [SVT.vt "i32"] (LeafVal.defLeaf (Rec.other "FOO"))

/-- `(set FOO:$o, (add GPR:$a, GPR:$a))`: a `set` destination of unknown
record kind. -/
def exTreeOtherDest : TPN := TPN.node "" [] OpRec.set [exOtherLeaf, exAddAA]

/-- The semantics block flattened from `exTreeMul`
(`GET_RC, UMUL_LOHI, ADD, PUT_RC`). -/
def exMulSems : List NodeSemantics :=
  (flattenInstruction exCgi [exTreeMul] (SemanticsTarget.init [])).sems

/-! Theorems. -/

theorem lookupN_mem {l : List (Nat × Nat)} {k v : Nat}
    (h : lookupN l k = some v) : (k, v) ∈ l := by
  induction l with
  | nil => simp [lookupN] at h
  | cons p t ih =>
      obtain ⟨k', v'⟩ := p
      simp only [lookupN] at h
      split at h
      · rename_i hk
        injection h with h
        subst hk; subst h
        exact List.mem_cons_self _ _
      · exact List.mem_cons_of_mem _ (ih h)

theorem lookupN_none {l : List (Nat × Nat)} {k : Nat}
    (h : lookupN l k = none) : ∀ p ∈ l, p.1 ≠ k := by
  induction l with
  | nil => intro p hp; simp at hp
  | cons q t ih =>
      obtain ⟨k', v'⟩ := q
      simp only [lookupN] at h
      split at h
      · exact absurd h (by simp)
      · rename_i hk
        intro p hp
        rcases List.mem_cons.mp hp with hz | hz
        · subst hz; exact hk
        · exact ih h p hz

theorem assocSetN_append {l : List (Nat × Nat)} {k v : Nat}
    (h : ∀ p ∈ l, p.1 ≠ k) : assocSetN l k v = l ++ [(k, v)] := by
  induction l with
  | nil => rfl
  | cons q t ih =>
      obtain ⟨k', v'⟩ := q
      have hk : k' ≠ k := h (k', v') (List.mem_cons_self _ _)
      simp only [assocSetN, if_neg hk, List.cons_append, List.cons.injEq, true_and]
      exact ih (fun p hp => h p (List.mem_cons_of_mem _ hp))

theorem setFold_length (l : List (Nat × Nat)) (arr : List Nat) :
    (l.foldl (fun a p => a.set p.2 p.1) arr).length = arr.length := by
  induction l generalizing arr with
  | nil => rfl
  | cons p t ih => simp [List.foldl_cons, ih, List.length_set]

theorem setFold_keep (l : List (Nat × Nat)) (arr : List Nat) (i : Nat)
    (h : ∀ p ∈ l, p.2 ≠ i) :
    (l.foldl (fun a p => a.set p.2 p.1) arr)[i]? = arr[i]? := by
  induction l generalizing arr with
  | nil => rfl
  | cons p t ih =>
      simp only [List.foldl_cons]
      rw [ih _ (fun q hq => h q (List.mem_cons_of_mem _ hq))]
      exact List.getElem?_set_ne (h p (List.mem_cons_self _ _))

theorem setFold_get (l : List (Nat × Nat)) (arr : List Nat)
    (hnd : (l.map Prod.snd).Nodup) (hlt : ∀ p ∈ l, p.2 < arr.length) :
    ∀ p ∈ l, (l.foldl (fun a q => a.set q.2 q.1) arr)[p.2]? = some p.1 := by
  induction l generalizing arr with
  | nil => intro p hp; simp at hp
  | cons q t ih =>
      obtain ⟨k, i⟩ := q
      simp only [List.map_cons, List.nodup_cons] at hnd
      intro p hp
      rcases List.mem_cons.mp hp with hz | hz
      · subst hz
        simp only [List.foldl_cons]
        rw [setFold_keep t _ _ (fun r hr => by
          intro hri
          exact hnd.1 (hri ▸ List.mem_map_of_mem Prod.snd hr))]
        exact List.getElem?_set_eq_of_lt _ (hlt (k, i) (List.mem_cons_self _ _))
      · simp only [List.foldl_cons]
        exact ih _ hnd.2
          (fun r hr => by rw [List.length_set]; exact hlt r (List.mem_cons_of_mem _ hr))
          p hz

/-- Claim C7: the emitted `ConstantArray` has exactly `|pool| + 1` entries,
position 0 holds zero, and for every value `v` interned with assigned index
`i`, position `i` of the array holds `v` — the array inverts the interning
map. -/
theorem claim_C7_constantArray_roundtrip (t : SemanticsTarget) (h : poolWF t) :
    (emitConstants t).length = t.constantIdx.length + 1 ∧
    (emitConstants t)[0]? = some 0 ∧
    ∀ v i, (v, i) ∈ t.constantIdx → (emitConstants t)[i]? = some v := by
  obtain ⟨hidx, _⟩ := h
  have hlen0 : (List.replicate (t.constantIdx.length + 1) (0 : Nat)).length =
      t.constantIdx.length + 1 := by simp
  refine ⟨?_, ?_, ?_⟩
  · rw [emitConstants, setFold_length, hlen0]
  · rw [emitConstants, setFold_keep]
    · simp
    · intro p hp hzero
      have : p.2 ∈ t.constantIdx.map Prod.snd := List.mem_map_of_mem Prod.snd hp
      rw [hidx] at this
      have := List.mem_range'_1.mp this
      omega
  · intro v i hmem
    rw [emitConstants]
    exact setFold_get t.constantIdx _
      (by rw [hidx]; exact List.nodup_range' 1 t.constantIdx.length)
      (fun p hp => by
        have : p.2 ∈ t.constantIdx.map Prod.snd := List.mem_map_of_mem Prod.snd hp
        rw [hidx] at this
        have := List.mem_range'_1.mp this
        rw [hlen0]; omega)
      (v, i) hmem

/-- Witness for C7 on a concrete two-entry pool. -/
theorem claim_C7_constantArray_roundtrip_witness :
    (emitConstants ⟨[], [(7, 1), (5, 2)], 3⟩).length = 3 ∧
    (emitConstants ⟨[], [(7, 1), (5, 2)], 3⟩)[0]? = some 0 ∧
    (emitConstants ⟨[], [(7, 1), (5, 2)], 3⟩)[2]? = some 5 := by
  have h := claim_C7_constantArray_roundtrip ⟨[], [(7, 1), (5, 2)], 3⟩ (by decide)
  exact ⟨h.1, h.2.1, h.2.2 5 2 (by decide)⟩

/-- Claim C6: interning a 64-bit value returns the previously assigned index
and leaves the pool unchanged when the value is present; otherwise it
assigns the next free index (1 for the first value, increasing by one per
new value) and extends the pool; index 0 is never returned; well-formedness
of the pool is preserved. -/
theorem claim_C6_intern_spec (t : SemanticsTarget) (v : Nat) (h : poolWF t) :
    (∀ j, lookupN t.constantIdx v = some j →
        (internConstant t v).1 = j ∧ (internConstant t v).2 = t) ∧
    (lookupN t.constantIdx v = none →
        (internConstant t v).1 = t.constantIdx.length + 1 ∧
        (internConstant t v).2.constantIdx =
          t.constantIdx ++ [(v, t.constantIdx.length + 1)] ∧
        (internConstant t v).2.curConstIdx = t.constantIdx.length + 2) ∧
    (internConstant t v).1 ≠ 0 ∧ poolWF (internConstant t v).2 := by
  obtain ⟨hidx, hcur⟩ := h
  have hpos : ∀ j, lookupN t.constantIdx v = some j → j ≠ 0 := by
    intro j hj
    have : j ∈ t.constantIdx.map Prod.snd :=
      List.mem_map_of_mem Prod.snd (lookupN_mem hj)
    rw [hidx] at this
    have := List.mem_range'_1.mp this
    omega
  refine ⟨?_, ?_, ?_, ?_⟩
  · intro j hj
    have hj0 := hpos j hj
    simp [internConstant, hj, hj0]
  · intro hnone
    have happ := assocSetN_append (l := t.constantIdx) (k := v)
      (v := t.curConstIdx) (lookupN_none hnone)
    rw [hcur] at happ
    simp [internConstant, hnone, happ, hcur]
  · by_cases hc : lookupN t.constantIdx v = none
    · simp [internConstant, hc, hcur]
    · obtain ⟨j, hj⟩ := Option.ne_none_iff_exists'.mp hc
      have hj0 := hpos j hj
      simp [internConstant, hj, hj0]
  · by_cases hc : lookupN t.constantIdx v = none
    · have happ := assocSetN_append (l := t.constantIdx) (k := v)
        (v := t.curConstIdx) (lookupN_none hc)
      rw [hcur] at happ
      have h1 : (internConstant t v).2.constantIdx =
          t.constantIdx ++ [(v, t.constantIdx.length + 1)] := by
        simp [internConstant, hc, happ, hcur]
      have h2 : (internConstant t v).2.curConstIdx = t.constantIdx.length + 2 := by
        simp [internConstant, hc, hcur]
      refine ⟨?_, ?_⟩
      · rw [h1, List.map_append, hidx]
        simp only [List.map_cons, List.map_nil, List.length_append,
          List.length_cons, List.length_nil]
        rw [show t.constantIdx.length + (0 + 1) = t.constantIdx.length + 1 by omega]
        rw [List.range'_1_concat 1 t.constantIdx.length]
        simp [Nat.add_comm]
      · rw [h2, h1]
        simp
    · obtain ⟨j, hj⟩ := Option.ne_none_iff_exists'.mp hc
      have hj0 := hpos j hj
      simp only [internConstant, hj, Option.getD_some, if_neg hj0]
      exact ⟨hidx, hcur⟩

/-- Witness for C6 on a concrete pool: a hit returns the stored index, a
miss allocates index 3. -/
theorem claim_C6_intern_spec_witness :
    ((internConstant ⟨[], [(40, 1), (41, 2)], 3⟩ 41).1 = 2 ∧
      (internConstant ⟨[], [(40, 1), (41, 2)], 3⟩ 41).2 = ⟨[], [(40, 1), (41, 2)], 3⟩) ∧
    (internConstant ⟨[], [(40, 1), (41, 2)], 3⟩ 99).1 = 3 ∧
    (internConstant ⟨[], [(40, 1), (41, 2)], 3⟩ 99).1 ≠ 0 := by
  have h1 := claim_C6_intern_spec ⟨[], [(40, 1), (41, 2)], 3⟩ 41 (by decide)
  have h2 := claim_C6_intern_spec ⟨[], [(40, 1), (41, 2)], 3⟩ 99 (by decide)
  exact ⟨h1.1 2 (by decide), (h2.2.1 (by decide)).1, h2.2.2.1⟩

theorem wrap32_ofNat {n : Nat} (h : n < 2 ^ 32) : wrap32 (n : Int) = n := by
  unfold wrap32
  omega

/-- Claim C9: a child all of whose type entries are `void` contributes no
operand token to the parent, does not advance `CurDefNo`, and is still
appended to the instruction semantics. -/
theorem claim_C9_void_child_frame (st : FlatSt) (prev : NodeSemantics)
    (h : ∀ t ∈ prev.types, t = SVT.isVoid) :
    addResOperand st prev = ([], { st with sems := st.sems ++ [prev] }) := by
  have htoks : resOperandTokens st.curDefNo prev.types = [] := by
    rw [resOperandTokens]
    refine List.filterMap_eq_nil_iff.mpr ?_
    intro i hi
    rw [List.mem_range] at hi
    rw [List.getElem?_eq_getElem hi]
    have hv := h _ (List.getElem_mem hi)
    simp [hv, SVT.isVoidB]
  have hnvc : nonVoidCount prev.types = 0 := by
    rw [nonVoidCount, List.length_eq_zero, List.filter_eq_nil_iff]
    intro t ht
    simp [h t ht, SVT.isVoidB]
  rw [addResOperand, htoks, addSemantics, hnvc]
  simp

/-- Witness for C9: an all-`void` `IMPLICIT`-shaped node. -/
theorem claim_C9_void_child_frame_witness :
    addResOperand (FlatSt.init (SemanticsTarget.init []))
        ⟨"DCINS::IMPLICIT", [SVT.isVoid], [OpTok.sym "X::EFLAGS"]⟩ =
      ([], { FlatSt.init (SemanticsTarget.init []) with
               sems := [⟨"DCINS::IMPLICIT", [SVT.isVoid], [OpTok.sym "X::EFLAGS"]⟩] }) :=
  claim_C9_void_child_frame (FlatSt.init (SemanticsTarget.init []))
    ⟨"DCINS::IMPLICIT", [SVT.isVoid], [OpTok.sym "X::EFLAGS"]⟩ (by decide)

/-- Counterexample to claim C2: in the block flattened from
`(set GPR:$d, (add (umul_lohi GPR:$a)))`, the two-result `umul_lohi` child
(node 1) acquires DefNos 1 and 2, but the tokens `addResOperand` wired into
its `ISD::ADD` parent (node 2) are 0 and 1 — `FirstDefNo` is computed from
the counter before the child's results are numbered, which is off by one
for multi-result children. -/
theorem claim_C2_counterexample :
    (exMulSems.map (fun n => n.opcode))[2]? = some "ISD::ADD" ∧
    (exMulSems[2]?).map (fun n => n.operands) = some [OpTok.num 0, OpTok.num 1] ∧
    acquiredDefNos exMulSems 1 = [1, 2] ∧
    (exMulSems[2]?).map (fun n => n.operands) ≠
      some ((acquiredDefNos exMulSems 1).map OpTok.num) := by
  refine ⟨by decide, by decide, by decide, by decide⟩

/-- Claim C2 (amended): the tokens `addResOperand` appends for a child are
`FirstDefNo + i` with `FirstDefNo = wrap32 (CurDefNo - (|types| - 1))`; for
a child with exactly one type entry — every node whose pattern source has
at most one result — the single token (when the type is non-`void`) is
exactly the DefNo the child's result acquires upon append, and it denotes a
result defined strictly before the updated counter. -/
theorem claim_C2_amended_single_type (st : FlatSt) (prev : NodeSemantics) (t : SVT)
    (htypes : prev.types = [t]) (hlt : st.curDefNo < 2 ^ 32) :
    (addResOperand st prev).1 =
      (if t.isVoidB then [] else [OpTok.num st.curDefNo]) ∧
    (addResOperand st prev).2.curDefNo =
      st.curDefNo + (if t.isVoidB then 0 else 1) ∧
    (addResOperand st prev).2.sems = st.sems ++ [prev] := by
  refine ⟨?_, ?_, ?_⟩
  · show resOperandTokens st.curDefNo prev.types = _
    rw [htypes, resOperandTokens]
    cases t with
    | isVoid => simp [SVT.isVoidB, List.range_succ]
    | vt nm =>
        simp only [SVT.isVoidB, List.length_cons, List.length_nil, List.range_succ,
          List.range_zero, List.nil_append, List.filterMap_cons, List.filterMap_nil,
          List.getElem?_cons_zero, Bool.false_eq_true, if_false]
        norm_num
        rw [wrap32_ofNat hlt]
        omega
  · show (addSemantics st prev).curDefNo = _
    rw [addSemantics, htypes]
    cases t with
    | isVoid => simp [nonVoidCount, SVT.isVoidB]
    | vt nm => simp [nonVoidCount, SVT.isVoidB]
  · show (addSemantics st prev).sems = _
    rw [addSemantics]

/-- Witness for the amended C2: a fresh state and a one-result `GET_RC`
child yield the single token 0 and advance the counter to 1. -/
theorem claim_C2_amended_single_type_witness :
    (addResOperand (FlatSt.init (SemanticsTarget.init []))
        ⟨"DCINS::GET_RC", [SVT.vt "i32"], [OpTok.num 1]⟩).1 = [OpTok.num 0] ∧
    (addResOperand (FlatSt.init (SemanticsTarget.init []))
        ⟨"DCINS::GET_RC", [SVT.vt "i32"], [OpTok.num 1]⟩).2.curDefNo = 1 := by
  have h := claim_C2_amended_single_type (FlatSt.init (SemanticsTarget.init []))
    ⟨"DCINS::GET_RC", [SVT.vt "i32"], [OpTok.num 1]⟩ (SVT.vt "i32") rfl (by decide)
  exact ⟨h.1, h.2.1⟩

theorem addSemFold_state (l : List Nat) (f : Nat → NodeSemantics) (st : FlatSt) :
    (l.foldl (fun acc i => addSemantics acc (f i)) st).sems = st.sems ++ l.map f ∧
    (l.foldl (fun acc i => addSemantics acc (f i)) st).errs = st.errs ∧
    (l.foldl (fun acc i => addSemantics acc (f i)) st).elimRegs = st.elimRegs ∧
    (l.foldl (fun acc i => addSemantics acc (f i)) st).operandByName = st.operandByName ∧
    (l.foldl (fun acc i => addSemantics acc (f i)) st).target = st.target := by
  induction l generalizing st with
  | nil => simp
  | cons a t ih =>
      simp only [List.foldl_cons, List.map_cons]
      obtain ⟨h1, h2, h3, h4, h5⟩ := ih (addSemantics st (f a))
      refine ⟨?_, h2, h3, h4, h5⟩
      rw [h1, addSemantics]
      simp

theorem elimInsertChild_state (st : FlatSt) (c : Option TPN) :
    (elimInsertChild st c).sems = st.sems ∧
    (elimInsertChild st c).errs = st.errs ∧
    (elimInsertChild st c).curDefNo = st.curDefNo ∧
    (elimInsertChild st c).operandByName = st.operandByName ∧
    (elimInsertChild st c).target = st.target := by
  rcases c with _ | child
  · exact ⟨rfl, rfl, rfl, rfl, rfl⟩
  · rw [elimInsertChild]
    rcases h : child.leafDefRec with _ | r <;> simp

theorem elimFold_state (l : List Nat) (g : Nat → Option TPN) (st : FlatSt) :
    (l.foldl (fun acc i => elimInsertChild acc (g i)) st).sems = st.sems ∧
    (l.foldl (fun acc i => elimInsertChild acc (g i)) st).errs = st.errs ∧
    (l.foldl (fun acc i => elimInsertChild acc (g i)) st).curDefNo = st.curDefNo ∧
    (l.foldl (fun acc i => elimInsertChild acc (g i)) st).operandByName = st.operandByName ∧
    (l.foldl (fun acc i => elimInsertChild acc (g i)) st).target = st.target := by
  induction l generalizing st with
  | nil => exact ⟨rfl, rfl, rfl, rfl, rfl⟩
  | cons a t ih =>
      simp only [List.foldl_cons]
      obtain ⟨h1, h2, h3, h4, h5⟩ := ih (elimInsertChild st (g a))
      obtain ⟨g1, g2, g3, g4, g5⟩ := elimInsertChild_state st (g a)
      exact ⟨h1.trans g1, h2.trans g2, h3.trans g3, h4.trans g4, h5.trans g5⟩

/-- On a destination child whose (normalized) leaf record is neither a
`RegisterClass` nor a `Register`, the emitted node has an empty opcode,
types `[void]`, and only the value-index operand. -/
theorem setDestNS_other (cgi : CGI) (children : List TPN) (firstDefNo i : Nat)
    (child : TPN) (r : Rec)
    (hc : children[i]? = some child) (hr : child.leafDefRec = some r)
    (hnotRC : (normalizeRegisterOperand r).isRegisterClassSub = false)
    (hnotR : (normalizeRegisterOperand r).isRegisterSub = false) :
    setDestNS cgi children firstDefNo i =
      ⟨"", [SVT.isVoid], [OpTok.num ((firstDefNo + i) % 2 ^ 32)]⟩ := by
  rw [setDestNS, hc]
  simp [hr, hnotRC, hnotR]

/-- With a matching arity and a flattened last child, `flattenSet` reduces
to `flattenSetRest`. -/
theorem flattenSet_rest (cgi : CGI) (nm : String) (tys : List SVT)
    (children : List TPN) (st : FlatSt) (lastChild : TPN) (p : List OpTok × FlatSt)
    (hlast : children[children.length - 1]? = some lastChild)
    (harity : children.length - 1 = lastChild.getNumTypes)
    (hfl : flattenLast cgi children st = some p) :
    flattenSet cgi nm tys children st = flattenSetRest cgi children p := by
  rw [flattenSet, hlast]
  simp [harity, hfl]

/-- Claim C10: a `set` destination whose leaf record is neither a
`RegisterClass` nor a `Register` (after `RegisterOperand` normalization)
causes no failure and no diagnostic: all `numDefs` destination nodes are
still appended (the loop continues), and the node for position `i` has an
empty opcode token, types `[void]`, and the sole operand `firstDef + i`. -/
theorem claim_C10_unknown_set_destination
    (cgi : CGI) (nm : String) (tys : List SVT) (children : List TPN)
    (st : FlatSt) (lastChild : TPN) (p : List OpTok × FlatSt)
    (i : Nat) (child : TPN) (r : Rec)
    (hlast : children[children.length - 1]? = some lastChild)
    (harity : children.length - 1 = lastChild.getNumTypes)
    (hfl : flattenLast cgi children st = some p)
    (hi : i < p.1.length)
    (hc : children[i]? = some child)
    (hr : child.leafDefRec = some r)
    (hnotRC : (normalizeRegisterOperand r).isRegisterClassSub = false)
    (hnotR : (normalizeRegisterOperand r).isRegisterSub = false) :
    (flattenSet cgi nm tys children st).errs = p.2.errs ∧
    (flattenSet cgi nm tys children st).sems.length = p.2.sems.length + p.1.length ∧
    (flattenSet cgi nm tys children st).sems[p.2.sems.length + i]? =
      some ⟨"", [SVT.isVoid],
        [OpTok.num ((wrap32 ((p.2.curDefNo : Int) - (p.1.length : Int)) + i) % 2 ^ 32)]⟩ := by
  rw [flattenSet_rest cgi nm tys children st lastChild p hlast harity hfl]
  simp only [flattenSetRest]
  obtain ⟨e1, e2, _, _, _⟩ := elimFold_state
    ((List.range (children.length - 1)).drop p.1.length)
    (fun i => children[i]?)
    ((List.range p.1.length).foldl
      (fun acc i => addSemantics acc
        (setDestNS cgi children (wrap32 ((p.2.curDefNo : Int) - (p.1.length : Int))) i)) p.2)
  obtain ⟨a1, a2, _, _, _⟩ := addSemFold_state (List.range p.1.length)
    (setDestNS cgi children (wrap32 ((p.2.curDefNo : Int) - (p.1.length : Int)))) p.2
  refine ⟨?_, ?_, ?_⟩
  · rw [e2, a2]
  · rw [e1, a1]
    simp
  · rw [e1, a1]
    rw [List.getElem?_append_right (Nat.le_add_right _ _)]
    rw [show p.2.sems.length + i - p.2.sems.length = i by omega]
    rw [List.getElem?_map]
    rw [List.getElem?_range (by simpa using hi)]
    simp [setDestNS_other cgi children _ i child r hc hr hnotRC hnotR]

/-- Witness for C10: `(set FOO:$o, (add GPR:$a, GPR:$a))` appends the inert
destination node and no diagnostic. -/
theorem claim_C10_unknown_set_destination_witness :
    (flattenSet exCgi "" [] [exOtherLeaf, exAddAA]
        (FlatSt.init (SemanticsTarget.init []))).errs = [] ∧
    (flattenSet exCgi "" [] [exOtherLeaf, exAddAA]
        (FlatSt.init (SemanticsTarget.init []))).sems[3]? =
      some ⟨"", [SVT.isVoid], [OpTok.num 2]⟩ := by
  have h := claim_C10_unknown_set_destination exCgi "" [] [exOtherLeaf, exAddAA]
    (FlatSt.init (SemanticsTarget.init [])) exAddAA
    ((flattenLast exCgi [exOtherLeaf, exAddAA]
        (FlatSt.init (SemanticsTarget.init []))).getD
      ([], FlatSt.init (SemanticsTarget.init [])))
    0 exOtherLeaf (Rec.other "FOO") (by rfl) (by rfl) (by rfl) (by decide)
    (by rfl) (by rfl) (by decide) (by decide)
  exact ⟨h.1, h.2.2⟩

theorem flattenChildren_shape (cgi : CGI) (cs : List TPN) (ns : NodeSemantics)
    (st : FlatSt) :
    (flattenChildren cgi cs ns st).1.opcode = ns.opcode ∧
    (flattenChildren cgi cs ns st).1.types = ns.types := by
  induction cs generalizing ns st with
  | nil => exact ⟨rfl, rfl⟩
  | cons c cs' ih =>
      simp only [flattenChildren]
      exact ih _ _

theorem elimInsert_mem_self (regs : List Rec) (r : Rec) : r ∈ elimInsert regs r := by
  rw [elimInsert]
  split
  · assumption
  · simp

theorem elimInsert_mem_mono {regs : List Rec} {s : Rec} (r : Rec)
    (h : s ∈ regs) : s ∈ elimInsert regs r := by
  rw [elimInsert]
  split
  · exact h
  · exact List.mem_append_left _ h

theorem elimInsertChild_mem_mono (st : FlatSt) (c : Option TPN) {s : Rec}
    (h : s ∈ st.elimRegs) : s ∈ (elimInsertChild st c).elimRegs := by
  rcases c with _ | child
  · exact h
  · rw [elimInsertChild]
    rcases hr : child.leafDefRec with _ | r
    · exact h
    · exact elimInsert_mem_mono r h

theorem elimFold_mem_mono (l : List Nat) (g : Nat → Option TPN) (st : FlatSt)
    {s : Rec} (h : s ∈ st.elimRegs) :
    s ∈ (l.foldl (fun acc i => elimInsertChild acc (g i)) st).elimRegs := by
  induction l generalizing st with
  | nil => exact h
  | cons a t ih =>
      simp only [List.foldl_cons]
      exact ih _ (elimInsertChild_mem_mono st (g a) h)

theorem elimFold_mem (l : List Nat) (g : Nat → Option TPN) (st : FlatSt)
    (i : Nat) (child : TPN) (r : Rec) (hi : i ∈ l) (hc : g i = some child)
    (hr : child.leafDefRec = some r) :
    r ∈ (l.foldl (fun acc j => elimInsertChild acc (g j)) st).elimRegs := by
  induction l generalizing st with
  | nil => simp at hi
  | cons a t ih =>
      simp only [List.foldl_cons]
      rcases List.mem_cons.mp hi with hz | hz
      · subst hz
        refine elimFold_mem_mono t g _ ?_
        rw [hc]
        simp only [elimInsertChild, hr]
        exact elimInsert_mem_self _ _
      · exact ih (elimInsertChild st (g a)) hz

/-- Counterexample to claim C4: in
`(set GPR:$d, GPR2, (addflag GPR:$a))` under the `addflag → ISD::ADD`
equivalence, the dropped destination child is a `RegisterClass` leaf, not a
`Register`; the flattener inserts its record into Eliminated-Implicit-Regs
all the same (and even emits an `IMPLICIT` tail for it), refuting "each of
the dropped destination children is a leaf Register record". -/
theorem claim_C4_counterexample :
    (flattenInstruction exCgi [exTreeBadDrop] exEquivTarget).elimRegs =
      [Rec.registerClass "GPR2"] ∧
    (Rec.registerClass "GPR2").isRegisterSub = false ∧
    (flattenInstruction exCgi [exTreeBadDrop] exEquivTarget).sems.getLast? =
      some (implicitNS exCgi (Rec.registerClass "GPR2")) := by
  refine ⟨by decide, by decide, by decide⟩

/-- Claim C4 (amended): (a) when an SDNode's operator is in the equivalence
relation, the node appended for it carries the equivalent record's enum
name as opcode and its types are the original types with exactly the
trailing `numTypes - numResults` entries dropped; (b) every
equivalence-dropped destination child of a `set` that is a record leaf has
its record inserted into Eliminated-Implicit-Regs — the code does not check
(outside a debug assertion) that the record is a `Register`. -/
theorem claim_C4_amended_equiv_rewrite :
    (∀ (cgi : CGI) (opName opcodeStr : String) (children : List TPN)
        (ns : NodeSemantics) (numTypes : Nat) (st : FlatSt) (info : SDNodeInfoS),
      lookupS st.target.sdnodeEquiv opName = some info →
      info.numResults ≤ numTypes → ns.types.length = numTypes →
      (flattenSDNode cgi opName opcodeStr children ns numTypes st).2.sems =
        (flattenChildren cgi children
          (applyEquiv st.target.sdnodeEquiv opName opcodeStr ns numTypes) st).2.sems ++
        [(flattenChildren cgi children
          (applyEquiv st.target.sdnodeEquiv opName opcodeStr ns numTypes) st).1] ∧
      (flattenChildren cgi children
          (applyEquiv st.target.sdnodeEquiv opName opcodeStr ns numTypes) st).1.opcode =
        info.enumName ∧
      (flattenChildren cgi children
          (applyEquiv st.target.sdnodeEquiv opName opcodeStr ns numTypes) st).1.types =
        ns.types.take info.numResults ∧
      (flattenChildren cgi children
          (applyEquiv st.target.sdnodeEquiv opName opcodeStr ns numTypes) st).1.types.length =
        info.numResults) ∧
    (∀ (cgi : CGI) (nm : String) (tys : List SVT) (children : List TPN)
        (st : FlatSt) (lastChild : TPN) (p : List OpTok × FlatSt)
        (i : Nat) (child : TPN) (r : Rec),
      children[children.length - 1]? = some lastChild →
      children.length - 1 = lastChild.getNumTypes →
      flattenLast cgi children st = some p →
      p.1.length ≤ i → i < children.length - 1 →
      children[i]? = some child → child.leafDefRec = some r →
      r ∈ (flattenSet cgi nm tys children st).elimRegs) := by
  constructor
  · intro cgi opName opcodeStr children ns numTypes st info hequiv hk hlen
    obtain ⟨ho, ht⟩ := flattenChildren_shape cgi children
      (applyEquiv st.target.sdnodeEquiv opName opcodeStr ns numTypes) st
    have happ : applyEquiv st.target.sdnodeEquiv opName opcodeStr ns numTypes =
        { ns with opcode := info.enumName,
                  types := popTypes ns.types (numTypes - info.numResults) } := by
      rw [applyEquiv, hequiv]
    refine ⟨?_, ?_, ?_, ?_⟩
    · rw [flattenSDNode]
      rfl
    · rw [ho, happ]
    · rw [ht, happ]
      show popTypes ns.types (numTypes - info.numResults) = _
      rw [popTypes, hlen]
      congr 1
      omega
    · rw [ht, happ]
      show (popTypes ns.types (numTypes - info.numResults)).length = _
      rw [popTypes, List.length_take, hlen]
      omega
  · intro cgi nm tys children st lastChild p i child r hlast harity hfl hge hlt hc hr
    rw [flattenSet_rest cgi nm tys children st lastChild p hlast harity hfl]
    simp only [flattenSetRest]
    refine elimFold_mem _ (fun j => children[j]?) _ i child r ?_ hc hr
    have hd := List.getElem?_drop (List.range (children.length - 1)) p.1.length
      (i - p.1.length)
    rw [show p.1.length + (i - p.1.length) = i by omega, List.getElem?_range hlt] at hd
    exact List.getElem?_mem hd

/-- Witness for the amended C4, from the `addflag` example: the rewritten
node keeps one type, and the dropped `GPR2` record lands in the set. -/
theorem claim_C4_amended_equiv_rewrite_witness :
    (flattenChildren exCgi [exARef]
        (applyEquiv exEquivTarget.sdnodeEquiv "addflag" "XI::ADDFLAG"
          ⟨"", [SVT.vt "i32", SVT.vt "i32"], []⟩ 2)
        (FlatSt.init exEquivTarget)).1.opcode = "ISD::ADD" ∧
    (flattenChildren exCgi [exARef]
        (applyEquiv exEquivTarget.sdnodeEquiv "addflag" "XI::ADDFLAG"
          ⟨"", [SVT.vt "i32", SVT.vt "i32"], []⟩ 2)
        (FlatSt.init exEquivTarget)).1.types = [SVT.vt "i32"] ∧
    Rec.registerClass "GPR2" ∈
      (flattenSet exCgi "" [] [exDLeaf, exGpr2Leaf, exAddFlag]
        (FlatSt.init exEquivTarget)).elimRegs := by
  have hA := claim_C4_amended_equiv_rewrite.1 exCgi "addflag" "XI::ADDFLAG" [exARef]
    ⟨"", [SVT.vt "i32", SVT.vt "i32"], []⟩ 2 (FlatSt.init exEquivTarget)
    ⟨"ISD::ADD", 1⟩ (by decide) (by decide) (by decide)
  have hB := claim_C4_amended_equiv_rewrite.2 exCgi "" [] [exDLeaf, exGpr2Leaf, exAddFlag]
    (FlatSt.init exEquivTarget) exAddFlag
    ((flattenLast exCgi [exDLeaf, exGpr2Leaf, exAddFlag]
        (FlatSt.init exEquivTarget)).getD ([], FlatSt.init exEquivTarget))
    1 exGpr2Leaf (Rec.registerClass "GPR2")
    (by rfl) (by rfl) (by rfl) (by decide) (by decide) (by rfl) (by decide)
  exact ⟨hA.2.1, hA.2.2.1.trans (by rfl), hB⟩

/-- Counterexample to claim C1: in `(set GPR:$d, (add GPR:$a, GPR:$a))` the
named operand `$a` (a `RegisterClass`, hence `GET_RC`) is referenced twice,
and the emitted block contains two `GET_RC` nodes for it — not exactly one:
only the `CUSTOM_OP` branch of `flattenOperand` consults the Operand-Name
Table. -/
theorem claim_C1_counterexample :
    countRefs exTreeDup "a" = 2 ∧
    ((flattenInstruction exCgi [exTreeDup] (SemanticsTarget.init [])).sems.filter
      (fun n => n.opcode == "DCINS::GET_RC" && n.operands == [OpTok.num 1])).length = 2 ∧
    ¬ (((flattenInstruction exCgi [exTreeDup] (SemanticsTarget.init [])).sems.filter
      (fun n => n.opcode == "DCINS::GET_RC" && n.operands == [OpTok.num 1])).length = 1) := by
  refine ⟨by decide, by decide, by decide⟩

/-- Claim C1 (amended): only named operands that resolve (after
`RegisterOperand` normalization) to a non-immediate `Operand` — the
`CUSTOM_OP` case — are deduplicated: (a) a later reference to a recorded
name appends only the recorded DefNo token and leaves the state untouched;
(b) the first reference emits the `CUSTOM_OP` node and records
`(name, CurDefNo)` in the Operand-Name Table; (c) a `RegisterClass` operand
(`GET_RC`) emits a fresh node on every reference, never consulting or
changing the table; (d) an immediate `Operand` (`CONSTANT_OP`) likewise
emits a fresh node on every reference, never consulting or changing the
table — both (c) and (d) hold for every table state, recorded name or
not. -/
theorem claim_C1_amended_dedup :
    (∀ (cgi : CGI) (nsTypes : List SVT) (oi : OperandInfo) (st : FlatSt) (d : Nat),
      (normalizeRegisterOperand oi.record).isOperandSub = true →
      oi.opType ≠ "OPERAND_IMMEDIATE" →
      lookupS st.operandByName oi.name = some d →
      flattenOperand cgi nsTypes oi st = ([OpTok.num d], st)) ∧
    (∀ (cgi : CGI) (nsTypes : List SVT) (oi : OperandInfo) (st : FlatSt),
      (normalizeRegisterOperand oi.record).isOperandSub = true →
      oi.opType ≠ "OPERAND_IMMEDIATE" →
      lookupS st.operandByName oi.name = none →
      (flattenOperand cgi nsTypes oi st).2.sems = st.sems ++
        [⟨"DCINS::CUSTOM_OP", nsTypes,
          [OpTok.sym (cgi.namespc ++ "::OpTypes::" ++
             (normalizeRegisterOperand oi.record).getName),
           OpTok.num oi.miOperandNo]⟩] ∧
      (flattenOperand cgi nsTypes oi st).2.operandByName =
        st.operandByName ++ [(oi.name, st.curDefNo)]) ∧
    (∀ (cgi : CGI) (nsTypes : List SVT) (oi : OperandInfo) (st : FlatSt),
      (normalizeRegisterOperand oi.record).isRegisterClassSub = true →
      (flattenOperand cgi nsTypes oi st).2.sems = st.sems ++
        [⟨"DCINS::GET_RC", nsTypes, [OpTok.num oi.miOperandNo]⟩] ∧
      (flattenOperand cgi nsTypes oi st).2.operandByName = st.operandByName) ∧
    (∀ (cgi : CGI) (nsTypes : List SVT) (oi : OperandInfo) (st : FlatSt),
      (normalizeRegisterOperand oi.record).isOperandSub = true →
      oi.opType = "OPERAND_IMMEDIATE" →
      (flattenOperand cgi nsTypes oi st).2.sems = st.sems ++
        [⟨"DCINS::CONSTANT_OP", nsTypes, [OpTok.num oi.miOperandNo]⟩] ∧
      (flattenOperand cgi nsTypes oi st).2.operandByName = st.operandByName) := by
  refine ⟨?_, ?_, ?_, ?_⟩
  · intro cgi nsTypes oi st d hop himm hhit
    simp only [flattenOperand, hop, if_true, himm, if_false, hhit]
  · intro cgi nsTypes oi st hop himm hmiss
    simp [flattenOperand, hop, himm, hmiss, addResOperand, addSemantics]
  · intro cgi nsTypes oi st hrc
    have hop : (normalizeRegisterOperand oi.record).isOperandSub = false := by
      rcases h : normalizeRegisterOperand oi.record <;>
        simp_all [Rec.isOperandSub, Rec.isRegisterClassSub]
    simp [flattenOperand, hop, hrc, addResOperand, addSemantics]
  · intro cgi nsTypes oi st hop himm
    simp [flattenOperand, hop, himm, addResOperand, addSemantics]

/-- Witness for the amended C1: a recorded `CUSTOM_OP` name is reused as
token 5 with no emission; a fresh name emits and records; a register-class
operand emits `GET_RC` and an immediate operand emits `CONSTANT_OP` even
though their names are recorded, leaving the table unchanged. -/
theorem claim_C1_amended_dedup_witness :
    flattenOperand exCgi [SVT.vt "i32"] ⟨"addr", 2, "OPERAND_MEMORY", Rec.operand "MemOp"⟩
        { FlatSt.init (SemanticsTarget.init []) with operandByName := [("addr", 5)] } =
      ([OpTok.num 5],
        { FlatSt.init (SemanticsTarget.init []) with operandByName := [("addr", 5)] }) ∧
    (flattenOperand exCgi [SVT.vt "i32"] ⟨"addr", 2, "OPERAND_MEMORY", Rec.operand "MemOp"⟩
        (FlatSt.init (SemanticsTarget.init []))).2.operandByName = [("addr", 0)] ∧
    (flattenOperand exCgi [SVT.vt "i32"] ⟨"a", 1, "", Rec.registerClass "GPR"⟩
        { FlatSt.init (SemanticsTarget.init []) with operandByName := [("a", 5)] }).2.sems =
      [⟨"DCINS::GET_RC", [SVT.vt "i32"], [OpTok.num 1]⟩] ∧
    (flattenOperand exCgi [SVT.vt "i32"] ⟨"imm", 3, "OPERAND_IMMEDIATE", Rec.operand "i32imm"⟩
        { FlatSt.init (SemanticsTarget.init []) with operandByName := [("imm", 5)] }).2.sems =
      [⟨"DCINS::CONSTANT_OP", [SVT.vt "i32"], [OpTok.num 3]⟩] ∧
    (flattenOperand exCgi [SVT.vt "i32"] ⟨"imm", 3, "OPERAND_IMMEDIATE", Rec.operand "i32imm"⟩
        { FlatSt.init (SemanticsTarget.init []) with operandByName := [("imm", 5)] }).2.operandByName =
      [("imm", 5)] := by
  have h1 := claim_C1_amended_dedup.1 exCgi [SVT.vt "i32"]
    ⟨"addr", 2, "OPERAND_MEMORY", Rec.operand "MemOp"⟩
    { FlatSt.init (SemanticsTarget.init []) with operandByName := [("addr", 5)] } 5
    (by decide) (by decide) (by decide)
  have h2 := claim_C1_amended_dedup.2.1 exCgi [SVT.vt "i32"]
    ⟨"addr", 2, "OPERAND_MEMORY", Rec.operand "MemOp"⟩
    (FlatSt.init (SemanticsTarget.init [])) (by decide) (by decide) (by decide)
  have h3 := claim_C1_amended_dedup.2.2.1 exCgi [SVT.vt "i32"]
    ⟨"a", 1, "", Rec.registerClass "GPR"⟩
    { FlatSt.init (SemanticsTarget.init []) with operandByName := [("a", 5)] }
    (by decide)
  have h4 := claim_C1_amended_dedup.2.2.2 exCgi [SVT.vt "i32"]
    ⟨"imm", 3, "OPERAND_IMMEDIATE", Rec.operand "i32imm"⟩
    { FlatSt.init (SemanticsTarget.init []) with operandByName := [("imm", 5)] }
    (by decide) (by decide)
  exact ⟨h1, h2.2.trans (by rfl), h3.1.trans (by rfl), h4.1.trans (by rfl),
    h4.2.trans (by rfl)⟩

theorem flattenOperand_elim (cgi : CGI) (nsTypes : List SVT) (oi : OperandInfo)
    (st : FlatSt) : (flattenOperand cgi nsTypes oi st).2.elimRegs = st.elimRegs := by
  rw [flattenOperand]
  split
  · split
    · rfl
    · split <;> rfl
  · split <;> rfl

theorem flattenLeaf_elim (cgi : CGI) (nsTypes : List SVT) (lv : LeafVal)
    (st : FlatSt) : (flattenLeaf cgi nsTypes lv st).2.elimRegs = st.elimRegs := by
  rcases lv with v | r
  · rfl
  · simp only [flattenLeaf]
    split <;> rfl

theorem elimInsert_nodup {regs : List Rec} (r : Rec) (h : regs.Nodup) :
    (elimInsert regs r).Nodup := by
  rw [elimInsert]
  split
  · exact h
  · rename_i hmem
    simp [List.nodup_append, h, hmem]

theorem elimInsertChild_nodup (st : FlatSt) (c : Option TPN)
    (h : st.elimRegs.Nodup) : (elimInsertChild st c).elimRegs.Nodup := by
  rcases c with _ | child
  · exact h
  · rw [elimInsertChild]
    rcases hr : child.leafDefRec with _ | r
    · exact h
    · exact elimInsert_nodup r h

theorem elimFold_nodup (l : List Nat) (g : Nat → Option TPN) (st : FlatSt)
    (h : st.elimRegs.Nodup) :
    (l.foldl (fun acc i => elimInsertChild acc (g i)) st).elimRegs.Nodup := by
  induction l generalizing st with
  | nil => exact h
  | cons a t ih =>
      simp only [List.foldl_cons]
      exact ih _ (elimInsertChild_nodup st (g a) h)

theorem flattenSetRest_elim_nodup (cgi : CGI) (children : List TPN)
    (p : List OpTok × FlatSt) (h : p.2.elimRegs.Nodup) :
    (flattenSetRest cgi children p).elimRegs.Nodup := by
  simp only [flattenSetRest]
  refine elimFold_nodup _ _ _ ?_
  obtain ⟨_, _, he, _, _⟩ := addSemFold_state (List.range p.1.length)
    (setDestNS cgi children (wrap32 ((p.2.curDefNo : Int) - (p.1.length : Int)))) p.2
  rw [he]
  exact h

/-- One-step unfolding of `flatten` (each constructor case reduces
definitionally; the `set` and SDNode branches are the standalone
`flattenSet` / `flattenSDNode`). -/
theorem flatten_unfold (cgi : CGI) (tpn : TPN) (st : FlatSt) :
    flatten cgi tpn st =
      match getNamedOperand cgi tpn.getName with
      | some oi => flattenOperand cgi (setNSTypeFromNode tpn.getTypes) oi st
      | none =>
        match tpn with
        | .leaf _ tys lv => flattenLeaf cgi (setNSTypeFromNode tys) lv st
        | .node nm tys op children =>
          match op with
          | .set => ([], flattenSet cgi nm tys children st)
          | .implicit =>
              addResOperand st
                (flattenImplicit cgi children
                  { opcode := "", types := setNSTypeFromNode tys, operands := [] })
          | .sdnode opName opcodeStr =>
              flattenSDNode cgi opName opcodeStr children
                { opcode := "", types := setNSTypeFromNode tys, operands := [] }
                tys.length st
          | .other _ => ([], st) := by
  rcases tpn with ⟨nm, tys, lv⟩ | ⟨nm, tys, op, children⟩
  · rfl
  · rcases op <;> rfl

/-- Flattening preserves the no-duplicates invariant of
Eliminated-Implicit-Regs, jointly for the three mutual recursions (strong
induction on the node size). -/
theorem flatten_elim_nodup_all (cgi : CGI) (n : Nat) :
    (∀ (tpn : TPN) (st : FlatSt), sizeOf tpn ≤ n → st.elimRegs.Nodup →
      (flatten cgi tpn st).2.elimRegs.Nodup) ∧
    (∀ (cs : List TPN) (ns : NodeSemantics) (st : FlatSt), sizeOf cs ≤ n →
      st.elimRegs.Nodup → (flattenChildren cgi cs ns st).2.elimRegs.Nodup) ∧
    (∀ (cs : List TPN) (st : FlatSt) (p : List OpTok × FlatSt), sizeOf cs ≤ n →
      st.elimRegs.Nodup → flattenLast cgi cs st = some p →
      p.2.elimRegs.Nodup) := by
  induction n using Nat.strong_induction_on with
  | _ n ih =>
    refine ⟨?_, ?_, ?_⟩
    · intro tpn st hsz hnd
      rw [flatten_unfold]
      rcases hname : getNamedOperand cgi tpn.getName with _ | oi
      · simp only [hname]
        rcases tpn with ⟨nm, tys, lv⟩ | ⟨nm, tys, op, children⟩
        · rw [flattenLeaf_elim]
          exact hnd
        · have hcs : sizeOf children < sizeOf (TPN.node nm tys op children) := by
            simp
          rcases op with _ | _ | ⟨opName, opcodeStr⟩ | onm
          · -- set
            show (flattenSet cgi nm tys children st).elimRegs.Nodup
            rw [flattenSet]
            rcases hlast : children[children.length - 1]? with _ | lastChild
            · exact hnd
            · by_cases harity : children.length - 1 ≠ lastChild.getNumTypes
              · simpa [harity] using hnd
              · rcases hfl : flattenLast cgi children st with _ | p
                · simpa [harity, hfl] using hnd
                · have hp := flattenSetRest_elim_nodup cgi children p
                    ((ih (sizeOf children) (by omega)).2.2 children st p
                      (Nat.le_refl _) hnd hfl)
                  simpa [harity, hfl] using hp
          · -- implicit
            exact hnd
          · -- sdnode
            show ((flattenSDNode cgi opName opcodeStr children _ tys.length st).2).elimRegs.Nodup
            rw [flattenSDNode]
            exact (ih (sizeOf children) (by omega)).2.1 children _ st
              (Nat.le_refl _) hnd
          · -- other operator
            exact hnd
      · simp only [hname]
        rw [flattenOperand_elim]
        exact hnd
    · intro cs ns st hsz hnd
      rcases cs with _ | ⟨c, cs'⟩
      · simpa [flattenChildren] using hnd
      · have hc : sizeOf c < sizeOf (c :: cs') := by
          simp
          omega
        have hcs' : sizeOf cs' < sizeOf (c :: cs') := by
          simp
        simp only [flattenChildren]
        refine (ih (sizeOf cs') (by omega)).2.1 cs' _ _ (Nat.le_refl _) ?_
        exact (ih (sizeOf c) (by omega)).1 c st (Nat.le_refl _) hnd
    · intro cs st p hsz hnd hfl
      rcases cs with _ | ⟨c, cs'⟩
      · simp [flattenLast] at hfl
      · rcases cs' with _ | ⟨c2, cs''⟩
        · have hc : sizeOf c < sizeOf [c] := by
            simp
            omega
          simp only [flattenLast] at hfl
          injection hfl with hfl
          subst hfl
          exact (ih (sizeOf c) (by omega)).1 c st (Nat.le_refl _) hnd
        · have hrest : sizeOf (c2 :: cs'') < sizeOf (c :: c2 :: cs'') := by
            simp
          simp only [flattenLast] at hfl
          exact (ih (sizeOf (c2 :: cs'')) (by omega)).2.2 (c2 :: cs'') st p
            (Nat.le_refl _) hnd hfl

/-- Counterexample to claim C8: for an instruction whose pattern has two
root trees, a register eliminated while flattening the first tree gets an
`IMPLICIT` tail node after each tree — two nodes, not exactly one (the set
is never cleared between trees). -/
theorem claim_C8_counterexample :
    ((flattenInstruction exCgi [exTreeFlag, exTrap] exEquivTarget).sems.filter
      (fun n => n == implicitNS exCgi (Rec.register "EFLAGS"))).length = 2 ∧
    ¬ (((flattenInstruction exCgi [exTreeFlag, exTrap] exEquivTarget).sems.filter
      (fun n => n == implicitNS exCgi (Rec.register "EFLAGS"))).length = 1) := by
  refine ⟨by decide, by decide⟩

/-- Claim C8 (amended): for an instruction whose pattern has a single root
tree, the emitted block is the flattened tree followed by exactly one
`IMPLICIT` node (types `[void]`, sole operand the qualified register name)
per register of Eliminated-Implicit-Regs, in insertion order; the
insertion-ordered set holds each register at most once.  With several root
trees the tail is re-emitted after every tree. -/
theorem claim_C8_amended_implicit_tail (cgi : CGI) (tpn : TPN) (t : SemanticsTarget) :
    (flattenInstruction cgi [tpn] t).sems =
      (flatten cgi tpn (FlatSt.init t)).2.sems ++
        (flatten cgi tpn (FlatSt.init t)).2.elimRegs.map (implicitNS cgi) ∧
    (flattenInstruction cgi [tpn] t).elimRegs =
      (flatten cgi tpn (FlatSt.init t)).2.elimRegs ∧
    (flatten cgi tpn (FlatSt.init t)).2.elimRegs.Nodup := by
  refine ⟨rfl, rfl, ?_⟩
  exact (flatten_elim_nodup_all cgi (sizeOf tpn)).1 tpn (FlatSt.init t)
    (Nat.le_refl _) List.nodup_nil

/-- Witness for the amended C8 on the `addflag` instruction: the single
eliminated register yields exactly one `IMPLICIT` tail node. -/
theorem claim_C8_amended_implicit_tail_witness :
    (flattenInstruction exCgi [exTreeFlag] exEquivTarget).sems =
      (flatten exCgi exTreeFlag (FlatSt.init exEquivTarget)).2.sems ++
        [implicitNS exCgi (Rec.register "EFLAGS")] ∧
    (flatten exCgi exTreeFlag (FlatSt.init exEquivTarget)).2.elimRegs.Nodup := by
  have h := claim_C8_amended_implicit_tail exCgi exTreeFlag exEquivTarget
  exact ⟨h.1.trans (by rfl), h.2.2⟩

theorem fallbackStep_len (d : InstrDesc) (i : Nat) (es : EmitSt) (t : SemanticsTarget) :
    (fallbackStep d i es t).1.instIdx.length = es.instIdx.length := by
  rw [fallbackStep]
  split
  · rfl
  · rcases d.pattern with _ | trees
    · rfl
    · simp only []
      split
      · rfl
      · simp [addInstSemantics]

theorem fallbackStep_preserve (d : InstrDesc) (i : Nat) (es : EmitSt)
    (t : SemanticsTarget) (j : Nat) (hj : j ≠ i) :
    (fallbackStep d i es t).1.instIdx[j]? = es.instIdx[j]? := by
  rw [fallbackStep]
  split
  · rfl
  · rcases d.pattern with _ | trees
    · rfl
    · simp only []
      split
      · rfl
      · simp only [addInstSemantics]
        exact List.getElem?_set_ne (fun h => hj h.symm)

theorem fallbackStep_semas_mono (d : InstrDesc) (i : Nat) (es : EmitSt)
    (t : SemanticsTarget) :
    es.instSemas.length ≤ (fallbackStep d i es t).1.instSemas.length := by
  rw [fallbackStep]
  split
  · exact Nat.le_refl _
  · rcases d.pattern with _ | trees
    · exact Nat.le_refl _
    · simp only []
      split
      · exact Nat.le_refl _
      · simp [addInstSemantics]

theorem fallbackPhase_len (ds : List InstrDesc) (i : Nat) (es : EmitSt)
    (t : SemanticsTarget) :
    (fallbackPhase ds i es t).1.instIdx.length = es.instIdx.length := by
  induction ds generalizing i es t with
  | nil => rfl
  | cons d ds' ih =>
      rw [fallbackPhase]
      exact (ih _ _ _).trans (fallbackStep_len d i es t)

theorem fallbackPhase_preserve (ds : List InstrDesc) (i : Nat) (es : EmitSt)
    (t : SemanticsTarget) (j : Nat) (hj : j < i) :
    (fallbackPhase ds i es t).1.instIdx[j]? = es.instIdx[j]? := by
  induction ds generalizing i es t with
  | nil => rfl
  | cons d ds' ih =>
      rw [fallbackPhase]
      exact (ih (i + 1) _ _ (by omega)).trans
        (fallbackStep_preserve d i es t j (by omega))

/-- Claim C3: (a) on a `set` whose child count minus one differs from the
last child's type count, `flattenSet` appends exactly one diagnostic (the
child count, the set node's dump, the type count, the last child's dump) to
the error stream and returns with the state otherwise unchanged — no node
is appended; (b) the emitter's pattern-fallback loop keeps its index table
size and assigns a nonzero slot to every unassigned pattern-bearing
non-code-gen-only instruction, whatever the other instructions (including
mismatched ones) do — processing continues instruction by instruction
rather than aborting. -/
theorem claim_C3_set_arity_mismatch :
    (∀ (cgi : CGI) (nm : String) (tys : List SVT) (children : List TPN)
        (st : FlatSt) (lastChild : TPN),
      children[children.length - 1]? = some lastChild →
      children.length - 1 ≠ lastChild.getNumTypes →
      flattenSet cgi nm tys children st =
        { st with errs := st.errs ++
            [Diag.setArityMismatch (children.length - 1)
              (TPN.node nm tys OpRec.set children) lastChild.getNumTypes lastChild] }) ∧
    (∀ (ds : List InstrDesc) (i : Nat) (es : EmitSt) (t : SemanticsTarget),
      (fallbackPhase ds i es t).1.instIdx.length = es.instIdx.length) ∧
    (∀ (ds : List InstrDesc) (i : Nat) (es : EmitSt) (t : SemanticsTarget)
        (k : Nat) (d : InstrDesc) (trees : List TPN),
      ds[k]? = some d → d.pattern = some trees → d.cgi.isCodeGenOnly = false →
      es.instIdx[i + k]? = some 0 → 1 ≤ es.instSemas.length →
      (fallbackPhase ds i es t).1.instIdx[i + k]? ≠ some 0) := by
  refine ⟨?_, fallbackPhase_len, ?_⟩
  · intro cgi nm tys children st lastChild hlast harity
    rw [flattenSet, hlast]
    simp [harity]
  · intro ds i es t k d trees hd hpat hcgo hidx hsem
    induction ds generalizing i es t k with
    | nil => simp at hd
    | cons d0 ds' ih =>
        rcases k with _ | k'
        · rw [List.getElem?_cons_zero] at hd
          injection hd with hd
          subst hd
          rw [Nat.add_zero] at hidx ⊢
          rw [fallbackPhase]
          have hlt : i < es.instIdx.length := by
            by_contra hcon
            rw [List.getElem?_eq_none (by omega)] at hidx
            exact Option.noConfusion hidx
          have hstep : (fallbackStep d0 i es t).1.instIdx[i]? =
              some es.instSemas.length := by
            rw [fallbackStep]
            rw [if_neg (by simp [hidx])]
            rw [hpat]
            simp only [hcgo, Bool.false_eq_true, if_false, addInstSemantics]
            exact List.getElem?_set_eq_of_lt _ hlt
          rw [fallbackPhase_preserve ds' (i + 1) _ _ i (by omega), hstep]
          intro hcontra
          injection hcontra with hcontra
          omega
        · rw [fallbackPhase]
          have hidx' : (fallbackStep d0 i es t).1.instIdx[(i + 1) + k']? = some 0 := by
            rw [fallbackStep_preserve d0 i es t _ (by omega)]
            rw [show i + 1 + k' = i + (k' + 1) by omega]
            exact hidx
          have hsem' : 1 ≤ (fallbackStep d0 i es t).1.instSemas.length :=
            Nat.le_trans hsem (fallbackStep_semas_mono d0 i es t)
          have := ih (i + 1) (fallbackStep d0 i es t).1 (fallbackStep d0 i es t).2
            k' (by simpa using hd) hidx' hsem'
          rw [show i + (k' + 1) = i + 1 + k' by omega]
          exact this

/-- Witness for C3: the mismatched
`(set GPR:$d, GPR:$d, (add GPR:$a, GPR:$a))` yields exactly the diagnostic
and nothing else; in a two-instruction fallback run whose first instruction
is that mismatch, the second instruction still gets a nonzero slot. -/
theorem claim_C3_set_arity_mismatch_witness :
    flattenSet exCgi "" [] [exDLeaf, exDLeaf, exAddAA]
        (FlatSt.init (SemanticsTarget.init [])) =
      { FlatSt.init (SemanticsTarget.init []) with errs :=
          [Diag.setArityMismatch 2 (TPN.node "" [] OpRec.set [exDLeaf, exDLeaf, exAddAA])
            1 exAddAA] } ∧
    (fallbackPhase [⟨exCgi, some [exTreeMismatch]⟩, ⟨exCgi, some [exTreeDup]⟩] 0
        (emitterInit 2) (SemanticsTarget.init [])).1.instIdx[1]? ≠ some 0 := by
  constructor
  · have h := claim_C3_set_arity_mismatch.1 exCgi "" [] [exDLeaf, exDLeaf, exAddAA]
      (FlatSt.init (SemanticsTarget.init [])) exAddAA (by rfl) (by decide)
    exact h.trans (by rfl)
  · exact claim_C3_set_arity_mismatch.2.2
      [⟨exCgi, some [exTreeMismatch]⟩, ⟨exCgi, some [exTreeDup]⟩] 0
      (emitterInit 2) (SemanticsTarget.init []) 1
      ⟨exCgi, some [exTreeDup]⟩ [exTreeDup] (by rfl) (by rfl) (by decide)
      (by rfl) (by decide)

theorem nodeTokens_length (n : NodeSemantics) :
    (nodeTokens n).length = 1 + n.types.length + n.operands.length := by
  simp [nodeTokens]
  omega

theorem emitNodesFold (sema : List NodeSemantics) (stream : List Tok) (c : Nat) :
    sema.foldl
      (fun (p : List Tok × Nat) n =>
        (p.1 ++ nodeTokens n, p.2 + 1 + n.types.length + n.operands.length))
      (stream, c) =
    (stream ++ joinAll (sema.map nodeTokens),
     c + (joinAll (sema.map nodeTokens)).length) := by
  induction sema generalizing stream c with
  | nil => simp [joinAll]
  | cons n t ih =>
      simp only [List.foldl_cons, List.map_cons, joinAll]
      rw [ih]
      simp only [Prod.mk.injEq]
      constructor
      · rw [List.append_assoc]
      · rw [List.length_append, nodeTokens_length]
        omega

theorem runEmitStep_skip (s : List (List NodeSemantics)) (stream : List Tok)
    (cur : Nat) (idx : List Nat) (i : Nat) (h : (idx[i]?).getD 0 = 0) :
    runEmitStep s (stream, cur, idx) i = (stream, cur, idx) := by
  rw [runEmitStep]
  simp only [h]

theorem runEmitStep_hit (s : List (List NodeSemantics)) (stream : List Tok)
    (cur : Nat) (idx : List Nat) (i v : Nat) (hv : idx[i]? = some v) (h0 : v ≠ 0) :
    runEmitStep s (stream, cur, idx) i =
      (stream ++ blockTokens ((s[v]?).getD []),
       cur + (blockTokens ((s[v]?).getD [])).length,
       idx.set i cur) := by
  rcases v with _ | v'
  · exact absurd rfl h0
  · rw [runEmitStep]
    simp only [hv, Option.getD_some]
    rw [emitNodesFold]
    simp only [blockTokens, Prod.mk.injEq]
    refine ⟨?_, ?_, trivial⟩
    · rw [List.append_assoc]
    · rw [List.length_append]
      simp
      omega

theorem runEmitStep_idx_len (s : List (List NodeSemantics))
    (acc : List Tok × Nat × List Nat) (i : Nat) :
    (runEmitStep s acc i).2.2.length = acc.2.2.length := by
  obtain ⟨stream, cur, idx⟩ := acc
  rcases h : (idx[i]?).getD 0 with _ | v
  · rw [runEmitStep_skip s stream cur idx i h]
  · have hv : idx[i]? = some (v + 1) := by
      rcases hq : idx[i]? with _ | w
      · rw [hq] at h
        simp at h
      · rw [hq] at h
        simp at h
        rw [h]
    rw [runEmitStep_hit s stream cur idx i (v + 1) hv (by omega)]
    simp

theorem runEmitStep_stream_mono (s : List (List NodeSemantics))
    (acc : List Tok × Nat × List Nat) (i : Nat) :
    ∃ ext, (runEmitStep s acc i).1 = acc.1 ++ ext := by
  obtain ⟨stream, cur, idx⟩ := acc
  rcases h : (idx[i]?).getD 0 with _ | v
  · rw [runEmitStep_skip s stream cur idx i h]
    exact ⟨[], by simp⟩
  · have hv : idx[i]? = some (v + 1) := by
      rcases hq : idx[i]? with _ | w
      · rw [hq] at h
        simp at h
      · rw [hq] at h
        simp at h
        rw [h]
    rw [runEmitStep_hit s stream cur idx i (v + 1) hv (by omega)]
    exact ⟨_, rfl⟩

theorem runEmitStep_inv (s : List (List NodeSemantics))
    (acc : List Tok × Nat × List Nat) (i : Nat) (h : acc.2.1 = acc.1.length) :
    (runEmitStep s acc i).2.1 = (runEmitStep s acc i).1.length := by
  obtain ⟨stream, cur, idx⟩ := acc
  rcases hc : (idx[i]?).getD 0 with _ | v
  · rw [runEmitStep_skip s stream cur idx i hc]
    exact h
  · have hv : idx[i]? = some (v + 1) := by
      rcases hq : idx[i]? with _ | w
      · rw [hq] at hc
        simp at hc
      · rw [hq] at hc
        simp at hc
        rw [hc]
    rw [runEmitStep_hit s stream cur idx i (v + 1) hv (by omega)]
    simp at h ⊢
    omega

theorem runEmitStep_idx_ne (s : List (List NodeSemantics))
    (acc : List Tok × Nat × List Nat) (i j : Nat) (hj : j ≠ i) :
    (runEmitStep s acc i).2.2[j]? = acc.2.2[j]? := by
  obtain ⟨stream, cur, idx⟩ := acc
  rcases h : (idx[i]?).getD 0 with _ | v
  · rw [runEmitStep_skip s stream cur idx i h]
  · have hv : idx[i]? = some (v + 1) := by
      rcases hq : idx[i]? with _ | w
      · rw [hq] at h
        simp at h
      · rw [hq] at h
        simp at h
        rw [h]
    rw [runEmitStep_hit s stream cur idx i (v + 1) hv (by omega)]
    exact List.getElem?_set_ne (fun hx => hj hx.symm)

theorem runEmitFold_idx_len (s : List (List NodeSemantics)) (is : List Nat)
    (acc : List Tok × Nat × List Nat) :
    ((is.foldl (runEmitStep s) acc).2.2).length = acc.2.2.length := by
  induction is generalizing acc with
  | nil => rfl
  | cons a t ih =>
      simp only [List.foldl_cons]
      exact (ih _).trans (runEmitStep_idx_len s acc a)

theorem runEmitFold_stream_mono (s : List (List NodeSemantics)) (is : List Nat)
    (acc : List Tok × Nat × List Nat) :
    ∃ ext, (is.foldl (runEmitStep s) acc).1 = acc.1 ++ ext := by
  induction is generalizing acc with
  | nil => exact ⟨[], by simp⟩
  | cons a t ih =>
      simp only [List.foldl_cons]
      obtain ⟨e1, he1⟩ := runEmitStep_stream_mono s acc a
      obtain ⟨e2, he2⟩ := ih (runEmitStep s acc a)
      exact ⟨e1 ++ e2, by rw [he2, he1, List.append_assoc]⟩

theorem runEmitFold_inv (s : List (List NodeSemantics)) (is : List Nat)
    (acc : List Tok × Nat × List Nat) (h : acc.2.1 = acc.1.length) :
    (is.foldl (runEmitStep s) acc).2.1 = (is.foldl (runEmitStep s) acc).1.length := by
  induction is generalizing acc with
  | nil => exact h
  | cons a t ih =>
      simp only [List.foldl_cons]
      exact ih _ (runEmitStep_inv s acc a h)

theorem runEmitFold_idx_ne (s : List (List NodeSemantics)) (is : List Nat)
    (acc : List Tok × Nat × List Nat) (j : Nat) (hj : ∀ a ∈ is, j ≠ a) :
    (is.foldl (runEmitStep s) acc).2.2[j]? = acc.2.2[j]? := by
  induction is generalizing acc with
  | nil => rfl
  | cons a t ih =>
      simp only [List.foldl_cons]
      rw [ih _ (fun b hb => hj b (List.mem_cons_of_mem _ hb))]
      exact runEmitStep_idx_ne s acc a j (hj a (List.mem_cons_self _ _))

theorem runEmitStep_skip' (s : List (List NodeSemantics))
    (acc : List Tok × Nat × List Nat) (i : Nat) (h : (acc.2.2[i]?).getD 0 = 0) :
    runEmitStep s acc i = acc := by
  obtain ⟨stream, cur, idx⟩ := acc
  exact runEmitStep_skip s stream cur idx i h

theorem runEmitStep_hit' (s : List (List NodeSemantics))
    (acc : List Tok × Nat × List Nat) (i v : Nat)
    (hv : acc.2.2[i]? = some v) (h0 : v ≠ 0) :
    runEmitStep s acc i =
      (acc.1 ++ blockTokens ((s[v]?).getD []),
       acc.2.1 + (blockTokens ((s[v]?).getD [])).length,
       acc.2.2.set i acc.2.1) := by
  obtain ⟨stream, cur, idx⟩ := acc
  exact runEmitStep_hit s stream cur idx i v hv h0

/-- Claim C5: after `run`, for every instruction `i`, the rewritten
`OpcodeToSemaIdx[i]` is 0 exactly when the pre-run slot was 0 (the
instruction has no semantics); and when it has semantics, the entry is a
nonzero offset at which the emitted stream carries exactly the
instruction's block (its node lines followed by `END_OF_INSTRUCTION`) — in
particular `InstSemantics[OpcodeToSemaIdx[i]]` is the block's first opcode
token. -/
theorem claim_C5_offset_table (es : EmitSt) (i v : Nat)
    (hv : es.instIdx[i]? = some v) :
    ((runEmit es).2.2[i]? = some 0 ↔ v = 0) ∧
    (v ≠ 0 → ∃ off rest, (runEmit es).2.2[i]? = some off ∧ off ≠ 0 ∧
      (runEmit es).1.drop off =
        blockTokens ((es.instSemas[v]?).getD []) ++ rest) := by
  have hlt : i < es.instIdx.length := by
    by_contra hcon
    rw [List.getElem?_eq_none (by omega)] at hv
    exact Option.noConfusion hv
  rw [runEmit]
  set s := es.instSemas with hs
  set n := es.instIdx.length with hn
  have hsplit : List.range n = List.range i ++ i :: List.range' (i + 1) (n - i - 1) := by
    have h1 : i :: List.range' (i + 1) (n - i - 1) = List.range' i (n - i) := by
      rw [show n - i = (n - i - 1) + 1 by omega]
      rw [List.range'_succ]
      simp
    rw [h1, List.range_eq_range', List.range_eq_range']
    rw [show List.range' i (n - i) = List.range' (0 + i) (n - i) by rw [Nat.zero_add]]
    rw [List.range'_append_1 0 i (n - i)]
    congr 1
    omega
  rw [hsplit, List.foldl_append, List.foldl_cons]
  set acc0 : List Tok × Nat × List Nat := ([endTok], 1, es.instIdx) with hacc0
  set accx := (List.range i).foldl (runEmitStep s) acc0 with haccx
  have hx_idx : accx.2.2[i]? = some v := by
    rw [haccx, runEmitFold_idx_ne s (List.range i) acc0 i
      (fun a ha => by have := List.mem_range.mp ha; omega)]
    exact hv
  have hx_inv : accx.2.1 = accx.1.length := by
    rw [haccx]
    exact runEmitFold_inv s (List.range i) acc0 rfl
  have hx_cur_pos : 1 ≤ accx.2.1 := by
    obtain ⟨ext, hext⟩ := runEmitFold_stream_mono s (List.range i) acc0
    rw [hx_inv, haccx, hext]
    simp
  have hx_len : accx.2.2.length = n := by
    rw [haccx]
    exact runEmitFold_idx_len s (List.range i) acc0
  have hys : ∀ a ∈ List.range' (i + 1) (n - i - 1), i ≠ a := by
    intro a ha
    have := List.mem_range'_1.mp ha
    omega
  by_cases hv0 : v = 0
  · rw [runEmitStep_skip' s accx i (by rw [hx_idx, hv0]; rfl)]
    have hfin : ((List.range' (i + 1) (n - i - 1)).foldl
        (runEmitStep s) accx).2.2[i]? = some v := by
      rw [runEmitFold_idx_ne s _ accx i hys]
      exact hx_idx
    constructor
    · rw [hfin, hv0]
      simp
    · intro hcon
      exact absurd hv0 hcon
  · rw [runEmitStep_hit' s accx i v hx_idx hv0]
    have hset : (accx.2.2.set i accx.2.1)[i]? = some accx.2.1 :=
      List.getElem?_set_eq_of_lt _ (by omega)
    have hfin : ((List.range' (i + 1) (n - i - 1)).foldl (runEmitStep s)
        (accx.1 ++ blockTokens ((s[v]?).getD []),
         accx.2.1 + (blockTokens ((s[v]?).getD [])).length,
         accx.2.2.set i accx.2.1)).2.2[i]? = some accx.2.1 := by
      rw [runEmitFold_idx_ne s _ _ i hys]
      exact hset
    obtain ⟨ext2, hext2⟩ := runEmitFold_stream_mono s
      (List.range' (i + 1) (n - i - 1))
      (accx.1 ++ blockTokens ((s[v]?).getD []),
       accx.2.1 + (blockTokens ((s[v]?).getD [])).length,
       accx.2.2.set i accx.2.1)
    constructor
    · rw [hfin]
      constructor
      · intro hcon
        injection hcon with hcon
        omega
      · intro hcon
        exact absurd hcon hv0
    · intro _
      refine ⟨accx.2.1, ext2, hfin, by omega, ?_⟩
      rw [hext2]
      simp only []
      rw [List.append_assoc, hx_inv, List.drop_left]

/-- Witness for C5: a two-instruction emitter state (slot 0 unassigned,
slot 1 a one-node block) keeps 0 for the first entry and rewrites the
second to a nonzero offset. -/
theorem claim_C5_offset_table_witness :
    (runEmit ⟨[emptyInstSemantics, [⟨"ISD::TRAP", [SVT.isVoid], []⟩]],
        [0, 1]⟩).2.2[0]? = some 0 ∧
    ¬ ((runEmit ⟨[emptyInstSemantics, [⟨"ISD::TRAP", [SVT.isVoid], []⟩]],
        [0, 1]⟩).2.2[1]? = some 0) := by
  have h0 := claim_C5_offset_table
    ⟨[emptyInstSemantics, [⟨"ISD::TRAP", [SVT.isVoid], []⟩]], [0, 1]⟩ 0 0 (by rfl)
  have h1 := claim_C5_offset_table
    ⟨[emptyInstSemantics, [⟨"ISD::TRAP", [SVT.isVoid], []⟩]], [0, 1]⟩ 1 1 (by rfl)
  refine ⟨h0.1.mpr rfl, fun hc => ?_⟩
  have := h1.1.mp hc
  omega

end Sem
